import Mathlib

/-!
Shallow embedding of `src/src/orderbook_simulator/orderbook.py`: a
price-time priority limit order book with a matching engine.

Modelling conventions.
* Prices and timestamps are exact rationals (the spec treats prices as
  exact values compared for equality); quantities are integers.
* The mutable Python object graph — the registry `_orders` owning the
  `Order` objects, with the side queues holding references to the same
  objects — is modelled by explicit state: side queues hold order ids
  and the registry is an insertion-ordered association list from id to
  the authoritative order record, mirroring a Python `dict`.
* Python exceptions are modelled with `Except`.  A command returns the
  state as of the raise point together with the outcome; since every
  `raise` in the source happens before any mutation, the error branches
  return the input state unchanged.
* `defaultdict(list)` access, `dict` insertion-order iteration, and
  in-place list mutation are translated by `findQ` / `setQ` /
  explicit write-backs below.
-/

namespace OrderbookSim

/-- `Side` enum from the source. -/
inductive Side where
  | BUY
  | SELL
deriving DecidableEq, Repr

/-- `OrderType` enum from the source. -/
inductive OrderType where
  | LIMIT
  | MARKET
  | IOC
deriving DecidableEq, Repr

/-- `OrderStatus` enum from the source. -/
inductive OrderStatus where
  | OPEN
  | FILLED
  | PARTIALLY_FILLED
  | CANCELLED
deriving DecidableEq, Repr

/-- Python exception kinds raised by the source.  `validationError`
models `OrderValidationError` (declared as a subclass of `ValueError`),
`notFound` models `OrderNotFoundError` (a subclass of `KeyError`),
`valueError` models a plain `ValueError` raised directly, and
`zeroDivisionError` models `ZeroDivisionError`.  Distinct constructors
model distinct exception classes. -/
inductive Err where
  | validationError
  | notFound
  | valueError
  | zeroDivisionError
deriving DecidableEq, Repr

/-- The `Order` dataclass. -/
structure Order where
  order_id : Nat
  side : Side
  price : ℚ
  quantity : Int
  remaining : Int
  order_type : OrderType
  timestamp : ℚ
  status : OrderStatus
deriving DecidableEq, Repr

/-- The frozen `Trade` dataclass. -/
structure Trade where
  trade_id : Nat
  buy_order_id : Nat
  sell_order_id : Nat
  price : ℚ
  quantity : Int
  timestamp : ℚ
deriving DecidableEq, Repr

/-- The frozen `BookLevel` dataclass. -/
structure BookLevel where
  price : ℚ
  quantity : Int
  order_count : Nat
deriving DecidableEq, Repr

/-- One book side: a price-keyed, insertion-ordered map from price to
the FIFO queue of resting order ids (`Dict[float, List[Order]]`). -/
abbrev SideMap := List (ℚ × List Nat)

/-- The `OrderBook` state. -/
structure OrderBook where
  symbol : String
  tick_size : ℚ
  bids : SideMap
  asks : SideMap
  orders : List (Nat × Order)
  trades : List Trade
  next_order_id : Nat
  next_trade_id : Nat
deriving DecidableEq, Repr

/-- `MAX_ORDER_QUANTITY` constant. -/
abbrev MAX_ORDER_QUANTITY : Int := 1000000

/-- `MIN_PRICE` constant (0.01 = 1/100, written as a literal rational
so that it evaluates; `MIN_PRICE_eq` certifies the value). -/
abbrev MIN_PRICE : ℚ := ⟨1, 100, by decide, by simpa using Nat.coprime_one_left 100⟩

/-- `DEFAULT_TICK_SIZE` constant (0.01 = 1/100, as a literal rational;
`DEFAULT_TICK_SIZE_eq` certifies the value). -/
abbrev DEFAULT_TICK_SIZE : ℚ := ⟨1, 100, by decide, by simpa using Nat.coprime_one_left 100⟩

/-- Placeholder order used to totalise registry lookups; every lookup
performed by the model is at a registered id, mirroring the source
where registry entries exist for all referenced orders. -/
def defaultOrder : Order :=
  { order_id := 0, side := Side.BUY, price := 0, quantity := 0, remaining := 0,
    order_type := OrderType.LIMIT, timestamp := 0, status := OrderStatus.OPEN }

/-- Python `dict` lookup on the registry (first matching key). -/
def findOrder : List (Nat × Order) → Nat → Option Order
  | [], _ => none
  | kv :: rest, k => if kv.1 = k then some kv.2 else findOrder rest k

/-- Python `dict` assignment on the registry: update the entry in place
if the key exists (keeping its position), else append a new entry, as
Python dicts preserve insertion order. -/
def setOrder : List (Nat × Order) → Nat → Order → List (Nat × Order)
  | [], k, v => [(k, v)]
  | kv :: rest, k, v =>
    if kv.1 = k then (k, v) :: rest else kv :: setOrder rest k v

/-- Dereference an order id through the registry (the Python object the
id stands for). -/
def getOrder (st : OrderBook) (oid : Nat) : Order :=
  (findOrder st.orders oid).getD defaultOrder

/-- Python `dict` lookup on a book side. -/
def findQ : SideMap → ℚ → Option (List Nat)
  | [], _ => none
  | pq :: rest, p => if pq.1 = p then some pq.2 else findQ rest p

/-- Python `dict` assignment on a book side (update in place or append,
mirroring insertion-ordered dicts and the `defaultdict` fresh-key
case). -/
def setQ : SideMap → ℚ → List Nat → SideMap
  | [], p, q => [(p, q)]
  | pq :: rest, p, q =>
    if pq.1 = p then (p, q) :: rest else pq :: setQ rest p q

/-- All order ids resting anywhere on a side. -/
def sideIds (m : SideMap) : List Nat :=
  (m.map Prod.snd).flatten

/-- `_active_bid_prices` / `_active_ask_prices`: prices whose queue is
non-empty, in dict insertion order. -/
def active_prices (m : SideMap) : List ℚ :=
  (m.filter (fun pq => !pq.2.isEmpty)).map Prod.fst

/-- `_cleanup_empty_levels`: drop price keys whose queue is empty. -/
def cleanup_empty_levels (m : SideMap) : SideMap :=
  m.filter (fun pq => !pq.2.isEmpty)

/-- `_update_order_status`: set `FILLED` when nothing remains, else
`PARTIALLY_FILLED` when something was filled, else leave unchanged. -/
def update_order_status (o : Order) : Order :=
  if o.remaining = 0 then { o with status := OrderStatus.FILLED }
  else if o.remaining < o.quantity then { o with status := OrderStatus.PARTIALLY_FILLED }
  else o

/-- `_execute_trade`: decrement both orders by the fill quantity,
update both statuses, allocate the trade id, and append the trade to
the log.  `aggId` and `rId` are the two Python object references. -/
def execute_trade (st : OrderBook) (aggId rId : Nat) (price : ℚ) (qty : Int) :
    OrderBook × Trade :=
  let agg := getOrder st aggId
  let r := getOrder st rId
  let agg1 := update_order_status { agg with remaining := agg.remaining - qty }
  let r1 := update_order_status { r with remaining := r.remaining - qty }
  let buyId := if agg.side = Side.BUY then aggId else rId
  let sellId := if agg.side = Side.BUY then rId else aggId
  let t : Trade :=
    { trade_id := st.next_trade_id, buy_order_id := buyId, sell_order_id := sellId,
      price := price, quantity := qty, timestamp := agg.timestamp }
  ({ st with
      orders := setOrder (setOrder st.orders aggId agg1) rId r1,
      trades := st.trades ++ [t],
      next_trade_id := st.next_trade_id + 1 }, t)

/-- `_fill_at_price`: walk the FIFO queue head-to-tail, trading
`min(aggressor.remaining, resting.remaining)` against each resting
order while the aggressor has remaining quantity; resting orders whose
remaining hits 0 are removed from the queue (the source collects them
in `orders_to_remove` and removes them after the loop, which this
filtering recursion reproduces).  Returns the new state, the trades
generated at this level, and the queue after removals. -/
def fill_at_price (st : OrderBook) (aggId : Nat) (queue : List Nat) (price : ℚ) :
    OrderBook × List Trade × List Nat :=
  match queue with
  | [] => (st, [], [])
  | r :: rest =>
    if (getOrder st aggId).remaining ≤ 0 then (st, [], r :: rest)
    else
      let fill_qty := min (getOrder st aggId).remaining (getOrder st r).remaining
      let e := execute_trade st aggId r price fill_qty
      let k := fill_at_price e.1 aggId rest price
      if (getOrder e.1 r).remaining = 0 then (k.1, e.2 :: k.2.1, k.2.2)
      else (k.1, e.2 :: k.2.1, r :: k.2.2)

/-- The opposing-side map walked by the matcher (`True` for an incoming
BUY, which walks the asks). -/
def getOpp (isBuy : Bool) (st : OrderBook) : SideMap :=
  if isBuy then st.asks else st.bids

/-- Write back the opposing-side map. -/
def setOpp (isBuy : Bool) (st : OrderBook) (m : SideMap) : OrderBook :=
  if isBuy then { st with asks := m } else { st with bids := m }

/-- The non-MARKET price gate: a BUY stops at asks above its limit, a
SELL stops at bids below its limit. -/
def priceGate (isBuy : Bool) (p limit : ℚ) : Prop :=
  if isBuy then limit < p else p < limit

instance (isBuy : Bool) (p limit : ℚ) : Decidable (priceGate isBuy p limit) := by
  unfold priceGate; infer_instance

/-- The price-level loop shared by `_match_buy` and `_match_sell`:
walk the pre-sorted prices; at each level stop if the aggressor is
exhausted or the price gate fires, else fill against the level's queue
and write the shrunken queue back. -/
def match_go (isBuy : Bool) (aggId : Nat) : OrderBook → List ℚ → OrderBook × List Trade
  | st, [] => (st, [])
  | st, p :: rest =>
    if (getOrder st aggId).remaining ≤ 0 then (st, [])
    else if (getOrder st aggId).order_type ≠ OrderType.MARKET ∧
        priceGate isBuy p (getOrder st aggId).price then (st, [])
    else
      let q := (findQ (getOpp isBuy st) p).getD []
      let k := fill_at_price st aggId q p
      let st2 := setOpp isBuy k.1 (setQ (getOpp isBuy k.1) p k.2.2)
      let m := match_go isBuy aggId st2 rest
      (m.1, k.2.1 ++ m.2)

/-- `_match_buy`: sort the active ask prices ascending, run the level
loop, then drop emptied ask levels. -/
def match_buy (st : OrderBook) (aggId : Nat) : OrderBook × List Trade :=
  let sorted_prices := List.insertionSort (fun a b => a ≤ b) (active_prices st.asks)
  let m := match_go true aggId st sorted_prices
  ({ m.1 with asks := cleanup_empty_levels m.1.asks }, m.2)

/-- `_match_sell`: sort the active bid prices descending, run the level
loop, then drop emptied bid levels. -/
def match_sell (st : OrderBook) (aggId : Nat) : OrderBook × List Trade :=
  let sorted_prices := List.insertionSort (fun a b => b ≤ a) (active_prices st.bids)
  let m := match_go false aggId st sorted_prices
  ({ m.1 with bids := cleanup_empty_levels m.1.bids }, m.2)

/-- `_match_order`: dispatch on the aggressor's side. -/
def match_order (st : OrderBook) (aggId : Nat) : OrderBook × List Trade :=
  if (getOrder st aggId).side = Side.BUY then match_buy st aggId
  else match_sell st aggId

/-- `_add_to_book`: append the order id at the back of its own side's
queue at `order.price` (`defaultdict` access followed by
`list.append`). -/
def add_to_book (st : OrderBook) (o : Order) : OrderBook :=
  if o.side = Side.BUY then
    { st with bids := setQ st.bids o.price ((findQ st.bids o.price).getD [] ++ [o.order_id]) }
  else
    { st with asks := setQ st.asks o.price ((findQ st.asks o.price).getD [] ++ [o.order_id]) }

/-- `_handle_post_match`: a fully matched order is left as is; an IOC
or MARKET residual is marked `CANCELLED` and not inserted; a LIMIT
residual rests in the book. -/
def handle_post_match (st : OrderBook) (aggId : Nat) (order_type : OrderType) : OrderBook :=
  let o := getOrder st aggId
  if o.remaining ≤ 0 then st
  else if order_type = OrderType.IOC ∨ order_type = OrderType.MARKET then
    { st with orders := setOrder st.orders aggId { o with status := OrderStatus.CANCELLED } }
  else add_to_book st o

/-- `_validate_order_params` as the raise-condition: `True` exactly
when the source raises `OrderValidationError`. -/
def validate_order_params (price : ℚ) (quantity : Int) (order_type : OrderType) : Prop :=
  quantity ≤ 0 ∨ MAX_ORDER_QUANTITY < quantity ∨
    (order_type ≠ OrderType.MARKET ∧ price < MIN_PRICE)

instance (price : ℚ) (quantity : Int) (order_type : OrderType) :
    Decidable (validate_order_params price quantity order_type) := by
  unfold validate_order_params; infer_instance

/-- `_create_order`: build the order record with `remaining = quantity`
and status `OPEN` at the next free order id (the id counter is bumped
by the caller in this model). -/
def create_order (st : OrderBook) (side : Side) (price : ℚ) (quantity : Int)
    (order_type : OrderType) (timestamp : ℚ) : Order :=
  { order_id := st.next_order_id, side := side, price := price, quantity := quantity,
    remaining := quantity, order_type := order_type, timestamp := timestamp,
    status := OrderStatus.OPEN }

/-- `submit_order`: validate, create and register the order, match it,
dispose of the residual, and return the order (the live registry
record) and the generated trades.  The timestamp is the caller-supplied
value (the `None` / wall-clock default is external input). -/
def submit_order (st : OrderBook) (side : Side) (price : ℚ) (quantity : Int)
    (order_type : OrderType) (timestamp : ℚ) :
    OrderBook × Except Err (Order × List Trade) :=
  if validate_order_params price quantity order_type then
    (st, Except.error Err.validationError)
  else
    let o := create_order st side price quantity order_type timestamp
    let st1 := { st with
      orders := setOrder st.orders o.order_id o,
      next_order_id := st.next_order_id + 1 }
    let m := match_order st1 o.order_id
    let st3 := handle_post_match m.1 o.order_id order_type
    (st3, Except.ok (getOrder st3 o.order_id, m.2))

/-- `_validate_cancellable` as the raise-condition. -/
def validate_cancellable (o : Order) : Prop :=
  o.status = OrderStatus.FILLED ∨ o.status = OrderStatus.CANCELLED

instance (o : Order) : Decidable (validate_cancellable o) := by
  unfold validate_cancellable; infer_instance

/-- `_remove_from_book` on one side map: if the price key exists,
filter the order id out of its queue and drop the level if the queue
became empty. -/
def remove_from_book_side (m : SideMap) (price : ℚ) (oid : Nat) : SideMap :=
  match m with
  | [] => []
  | pq :: rest =>
    if pq.1 = price then
      (let q1 := pq.2.filter (fun x => decide (x ≠ oid))
       if q1.isEmpty then rest else (pq.1, q1) :: rest)
    else pq :: remove_from_book_side rest price oid

/-- `_remove_from_book`: remove the order from its side's queue at its
current price. -/
def remove_from_book (st : OrderBook) (o : Order) : OrderBook :=
  if o.side = Side.BUY then
    { st with bids := remove_from_book_side st.bids o.price o.order_id }
  else
    { st with asks := remove_from_book_side st.asks o.price o.order_id }

/-- `cancel_order`: look up (else `OrderNotFoundError`), check the
lifecycle (else `OrderValidationError`), detach from the side queue,
mark `CANCELLED`, and return the updated record. -/
def cancel_order (st : OrderBook) (order_id : Nat) : OrderBook × Except Err Order :=
  match findOrder st.orders order_id with
  | none => (st, Except.error Err.notFound)
  | some o =>
    if validate_cancellable o then (st, Except.error Err.validationError)
    else
      let st1 := remove_from_book st o
      let o1 := { o with status := OrderStatus.CANCELLED }
      let st2 := { st1 with orders := setOrder st1.orders order_id o1 }
      (st2, Except.ok o1)

/-- `_aggregate_side`: aggregate each price level over the orders with
`remaining > 0`, then sort by price (descending for bids). -/
def aggregate_side (st : OrderBook) (m : SideMap) (rev : Bool) : List BookLevel :=
  let levels := m.filterMap (fun pq =>
    let active := pq.2.filter (fun oid => decide (0 < (getOrder st oid).remaining))
    if active.isEmpty then none
    else some
      { price := pq.1,
        quantity := (active.map (fun oid => (getOrder st oid).remaining)).sum,
        order_count := active.length })
  if rev then List.insertionSort (fun a b => b.price ≤ a.price) levels
  else List.insertionSort (fun a b => a.price ≤ b.price) levels

/-- `_get_opposing_levels`: a BUY sweeps the asks (ascending), a SELL
sweeps the bids (descending). -/
def get_opposing_levels (st : OrderBook) (side : Side) : List BookLevel :=
  if side = Side.BUY then aggregate_side st st.asks false
  else aggregate_side st st.bids true

/-- The sweep loop of `_compute_vwap`, returning the final
`(remaining, total_cost)` pair. -/
def compute_vwap_go : List BookLevel → Int → ℚ → Int × ℚ
  | [], remaining, total_cost => (remaining, total_cost)
  | l :: rest, remaining, total_cost =>
    let fill_qty := min remaining l.quantity
    let total_cost1 := total_cost + (fill_qty : ℚ) * l.price
    let remaining1 := remaining - fill_qty
    if remaining1 ≤ 0 then (remaining1, total_cost1)
    else compute_vwap_go rest remaining1 total_cost1

/-- `_compute_vwap`: sweep the levels; report `none` on insufficient
liquidity; otherwise return `total_cost / quantity`.  The final
division is a Python float division, which raises `ZeroDivisionError`
when `quantity = 0`; the model makes that raise explicit. -/
def compute_vwap (levels : List BookLevel) (quantity : Int) : Except Err (Option ℚ) :=
  let k := compute_vwap_go levels quantity 0
  if 0 < k.1 then Except.ok none
  else if quantity = 0 then Except.error Err.zeroDivisionError
  else Except.ok (some (k.2 / (quantity : ℚ)))

/-- `get_vwap`: sweep the opposing aggregated levels. -/
def get_vwap (st : OrderBook) (side : Side) (quantity : Int) : Except Err (Option ℚ) :=
  compute_vwap (get_opposing_levels st side) quantity

/-- The freshly constructed book state. -/
def emptyBook (symbol : String) (tick_size : ℚ) : OrderBook :=
  { symbol := symbol, tick_size := tick_size, bids := [], asks := [],
    orders := [], trades := [], next_order_id := 1, next_trade_id := 1 }

/-- `OrderBook.__init__`: raises a plain `ValueError` (not the
`OrderValidationError` subclass) when `tick_size ≤ 0`. -/
def OrderBook.init (symbol : String) (tick_size : ℚ) : Except Err OrderBook :=
  if tick_size ≤ 0 then Except.error Err.valueError
  else Except.ok (emptyBook symbol tick_size)

/-- The side map holding the given side's resting orders. -/
def ownSide (st : OrderBook) (s : Side) : SideMap :=
  if s = Side.BUY then st.bids else st.asks

/-- The side map the matcher walks for an aggressor of the given side. -/
def oppSide (st : OrderBook) (s : Side) : SideMap :=
  if s = Side.BUY then st.asks else st.bids

/-- The opposite side. -/
def oppOf (s : Side) : Side :=
  if s = Side.BUY then Side.SELL else Side.BUY

/-- Instrumented `_fill_at_price`: the same recursion as
`fill_at_price`, returning each generated trade paired with the book
state immediately before that trade (the state read by
`_execute_trade`). -/
def fill_trace (st : OrderBook) (aggId : Nat) (queue : List Nat) (price : ℚ) :
    List (OrderBook × Trade) :=
  match queue with
  | [] => []
  | r :: rest =>
    if (getOrder st aggId).remaining ≤ 0 then []
    else
      let fill_qty := min (getOrder st aggId).remaining (getOrder st r).remaining
      let e := execute_trade st aggId r price fill_qty
      (st, e.2) :: fill_trace e.1 aggId rest price

/-- Instrumented `match_go`: each trade of the matching walk paired
with the state immediately before it. -/
def match_trace (isBuy : Bool) (aggId : Nat) : OrderBook → List ℚ → List (OrderBook × Trade)
  | st, [] => []
  | st, p :: rest =>
    if (getOrder st aggId).remaining ≤ 0 then []
    else if (getOrder st aggId).order_type ≠ OrderType.MARKET ∧
        priceGate isBuy p (getOrder st aggId).price then []
    else
      let q := (findQ (getOpp isBuy st) p).getD []
      let k := fill_at_price st aggId q p
      let st2 := setOpp isBuy k.1 (setQ (getOpp isBuy k.1) p k.2.2)
      fill_trace st aggId q p ++ match_trace isBuy aggId st2 rest

/-- Instrumented `submit_order`: the list of (pre-state, trade) pairs a
submit generates, mirroring the submit pipeline. -/
def submit_trace (st : OrderBook) (side : Side) (price : ℚ) (quantity : Int)
    (order_type : OrderType) (timestamp : ℚ) : List (OrderBook × Trade) :=
  if validate_order_params price quantity order_type then []
  else
    let o := create_order st side price quantity order_type timestamp
    let st1 := { st with
      orders := setOrder st.orders o.order_id o,
      next_order_id := st.next_order_id + 1 }
    if side = Side.BUY then
      match_trace true o.order_id st1
        (List.insertionSort (fun a b => a ≤ b) (active_prices st1.asks))
    else
      match_trace false o.order_id st1
        (List.insertionSort (fun a b => b ≤ a) (active_prices st1.bids))

/-- The state of the book right after `submit_order` has registered the
newly created order and bumped the id counter, before matching. -/
def registerState (st : OrderBook) (side : Side) (price : ℚ) (quantity : Int)
    (order_type : OrderType) (timestamp : ℚ) : OrderBook :=
  { st with
    orders := setOrder st.orders st.next_order_id
      (create_order st side price quantity order_type timestamp),
    next_order_id := st.next_order_id + 1 }

/-- The resting counterparty of a trade, given the aggressor's id: the
trade's other order id. -/
def restId (aggId : Nat) (t : Trade) : Nat :=
  if t.buy_order_id = aggId then t.sell_order_id else t.buy_order_id

/-- Strictly-better price on the opposing side: for a BUY aggressor a
lower ask, for a SELL aggressor a higher bid. -/
def priceBefore (b : Bool) (x y : ℚ) : Prop :=
  if b then x < y else y < x

instance (b : Bool) (x y : ℚ) : Decidable (priceBefore b x y) := by
  unfold priceBefore; infer_instance

/-- The matching-invariant fields of an order: everything except
`remaining` and `status`, which are the only fields the matcher
mutates. -/
def staticPart (o : Order) : Nat × Side × ℚ × Int × OrderType × ℚ :=
  (o.order_id, o.side, o.price, o.quantity, o.order_type, o.timestamp)

/-- The order component of a successful submit result. -/
def okOrder : Except Err (Order × List Trade) → Order
  | Except.ok x => x.1
  | Except.error _ => defaultOrder

/-- The level at which the VWAP sweep of `_compute_vwap` stops
(the last level it takes liquidity from), when the sweep completes. -/
def stop_level : List BookLevel → Int → Option BookLevel
  | [], _ => none
  | l :: rest, remaining =>
    if remaining - min remaining l.quantity ≤ 0 then some l
    else stop_level rest (remaining - min remaining l.quantity)

/-- Total traded quantity attributed to order id `k` in a trade log:
the sum over trades whose buyer or seller is `k`. -/
def tradeQty (trades : List Trade) (k : Nat) : Int :=
  ((trades.filter (fun t => decide (t.buy_order_id = k ∨ t.sell_order_id = k))).map
    (fun t => t.quantity)).sum

/-- Conservation of quantity: every registered order's original
quantity equals its remaining quantity plus the total quantity of the
trades that involve it. -/
def Conserv (st : OrderBook) : Prop :=
  ∀ kv ∈ st.orders, kv.2.quantity = kv.2.remaining + tradeQty st.trades kv.1

/-- The registry's key list. -/
def regKeys (st : OrderBook) : List Nat :=
  st.orders.map Prod.fst

/-- Structural well-formedness of a book state used as a hypothesis by
the matching theorems: price keys are unique per side, each FIFO queue
holds distinct ids, all resting ids and registry keys precede the id
counter.  All reachable states satisfy it. -/
def WFbook (st : OrderBook) : Prop :=
  (st.bids.map Prod.fst).Nodup ∧
  (st.asks.map Prod.fst).Nodup ∧
  (∀ pq ∈ st.bids, pq.2.Nodup) ∧
  (∀ pq ∈ st.asks, pq.2.Nodup) ∧
  (∀ i ∈ sideIds st.bids, i < st.next_order_id) ∧
  (∀ i ∈ sideIds st.asks, i < st.next_order_id) ∧
  (∀ kv ∈ st.orders, kv.1 < st.next_order_id)

instance (st : OrderBook) : Decidable (WFbook st) := by
  unfold WFbook; infer_instance

/-- Supporting invariant for conservation: unique registry keys, id
bounds for registry, queues and the trade log, resting ids registered,
and conservation itself. -/
def InvC3 (st : OrderBook) : Prop :=
  (regKeys st).Nodup ∧
  (∀ kv ∈ st.orders, kv.1 < st.next_order_id) ∧
  (∀ i ∈ sideIds st.bids, i < st.next_order_id ∧ i ∈ regKeys st) ∧
  (∀ i ∈ sideIds st.asks, i < st.next_order_id ∧ i ∈ regKeys st) ∧
  (∀ t ∈ st.trades, t.buy_order_id < st.next_order_id ∧ t.sell_order_id < st.next_order_id) ∧
  Conserv st

/-- The states reachable from construction through the public
commands (each command's next state is the first component it
returns, the raise-time state on errors). -/
inductive Reachable : OrderBook → Prop where
  | init : ∀ symbol tick_size b, OrderBook.init symbol tick_size = Except.ok b → Reachable b
  | submit : ∀ st side price quantity order_type timestamp, Reachable st →
      Reachable (submit_order st side price quantity order_type timestamp).1
  | cancel : ∀ st order_id, Reachable st → Reachable (cancel_order st order_id).1

/-! ## Values of the price constants -/

theorem MIN_PRICE_eq : MIN_PRICE = 1 / 100 := by
  norm_num [MIN_PRICE, Rat.mk'_eq_divInt, Rat.divInt_eq_div]

theorem DEFAULT_TICK_SIZE_eq : DEFAULT_TICK_SIZE = 1 / 100 := by
  norm_num [DEFAULT_TICK_SIZE, Rat.mk'_eq_divInt, Rat.divInt_eq_div]

/-! ## Basic association-list lemmas -/

theorem findOrder_setOrder_self (l : List (Nat × Order)) (k : Nat) (v : Order) :
    findOrder (setOrder l k v) k = some v := by
  induction l with
  | nil => simp [setOrder, findOrder]
  | cons kv rest ih =>
    by_cases h : kv.1 = k
    · simp [setOrder, h, findOrder]
    · simp [setOrder, h, findOrder, ih]

theorem findOrder_setOrder_other (l : List (Nat × Order)) (k k' : Nat) (v : Order)
    (h : k' ≠ k) : findOrder (setOrder l k v) k' = findOrder l k' := by
  induction l with
  | nil => simp [setOrder, findOrder, Ne.symm h]
  | cons kv rest ih =>
    by_cases hk : kv.1 = k
    · subst hk
      simp [setOrder, findOrder, Ne.symm h]
    · simp [setOrder, hk, findOrder, ih]

/-! ## Validation lemmas -/

theorem validate_order_params_iff (price : ℚ) (quantity : Int) (order_type : OrderType) :
    validate_order_params price quantity order_type ↔
      (quantity ≤ 0 ∨ MAX_ORDER_QUANTITY < quantity ∨
        (order_type ≠ OrderType.MARKET ∧ price < MIN_PRICE)) :=
  Iff.rfl

/-! ## Aggregated-level lemmas -/

theorem mem_aggregate_side (st : OrderBook) (m : SideMap) (rev : Bool) (l : BookLevel) :
    l ∈ aggregate_side st m rev ↔
      l ∈ m.filterMap (fun pq =>
        let active := pq.2.filter (fun oid => decide (0 < (getOrder st oid).remaining))
        if active.isEmpty then none
        else some
          { price := pq.1,
            quantity := (active.map (fun oid => (getOrder st oid).remaining)).sum,
            order_count := active.length }) := by
  unfold aggregate_side
  cases rev <;> simp [List.mem_insertionSort]

theorem aggregate_side_quantity_pos (st : OrderBook) (m : SideMap) (rev : Bool) :
    ∀ l ∈ aggregate_side st m rev, 0 < l.quantity := by
  intro l hl
  rw [mem_aggregate_side] at hl
  rcases List.mem_filterMap.mp hl with ⟨pq, _, hf⟩
  dsimp only at hf
  split at hf
  · exact absurd hf (by simp)
  · rename_i he
    have hl2 := Option.some.inj hf
    subst hl2
    dsimp only
    apply List.sum_pos
    · intro x hx
      rcases List.mem_map.mp hx with ⟨oid, hoid, hox⟩
      subst hox
      exact of_decide_eq_true (List.mem_filter.mp hoid).2
    · intro hnil
      rw [List.map_eq_nil_iff] at hnil
      exact he (by simp [hnil])

theorem get_opposing_levels_quantity_pos (st : OrderBook) (side : Side) :
    ∀ l ∈ get_opposing_levels st side, 0 < l.quantity := by
  unfold get_opposing_levels
  by_cases h : side = Side.BUY
  · simp only [h, if_pos]
    exact aggregate_side_quantity_pos st st.asks false
  · simp only [h, if_neg, if_false]
    exact aggregate_side_quantity_pos st st.bids true

/-! ## Claim C10: vwap at quantity zero -/

theorem compute_vwap_go_zero (levels : List BookLevel) (c : ℚ)
    (h : ∀ l ∈ levels, 0 < l.quantity) : compute_vwap_go levels 0 c = (0, c) := by
  cases levels with
  | nil => rfl
  | cons l rest =>
    have hq : (0 : Int) < l.quantity := h l (by simp)
    have hmin : min (0 : Int) l.quantity = 0 := min_eq_left hq.le
    unfold compute_vwap_go
    simp [hmin]

/-- C10: for every book state and every side, `get_vwap` at quantity
exactly 0 neither returns a price nor the `None` sentinel: the sweep
loop leaves `remaining = 0`, the insufficient-liquidity guard
(`remaining > 0`) does not fire, and the final `total_cost / quantity`
division raises `ZeroDivisionError`. -/
theorem get_vwap_zero_raises_zero_division (st : OrderBook) (side : Side) :
    get_vwap st side 0 = Except.error Err.zeroDivisionError := by
  unfold get_vwap compute_vwap
  rw [compute_vwap_go_zero _ _ (get_opposing_levels_quantity_pos st side)]
  simp

/-! ## Claim C8: construction error kind -/

/-- C8 counterexample: constructing the book with `tick_size = 0` fails
with the plain `ValueError` kind, which is not the
`OrderValidationError` kind that a bad quantity raises (in the source,
`OrderBook.__init__` raises `ValueError` directly at line 149, while
`_validate_order_params` raises the `OrderValidationError` subclass),
so the claim that construction fails with the core's validation-error
kind is false. -/
theorem init_error_kind_counterexample :
    OrderBook.init "SIM" 0 = Except.error Err.valueError ∧
    (submit_order (emptyBook "SIM" (1 / 100)) Side.BUY 1 0 OrderType.LIMIT 0).2 =
      Except.error Err.validationError ∧
    Err.valueError ≠ Err.validationError := by
  refine ⟨rfl, ?_, by decide⟩
  have hv : validate_order_params 1 0 OrderType.LIMIT := Or.inl le_rfl
  simp [submit_order, if_pos hv]

/-- C8 amended: for every `tick_size ≤ 0`, construction fails with the
plain `ValueError` kind (the superclass of the validation-error kind,
not `OrderValidationError` itself), and for every `tick_size > 0`
construction succeeds. -/
theorem init_tick_size_spec (symbol : String) (tick_size : ℚ) :
    (tick_size ≤ 0 → OrderBook.init symbol tick_size = Except.error Err.valueError) ∧
    (0 < tick_size → OrderBook.init symbol tick_size = Except.ok (emptyBook symbol tick_size)) := by
  constructor
  · intro h; simp [OrderBook.init, if_pos h]
  · intro h; simp [OrderBook.init, if_neg (not_le.mpr h)]

/-- Witness for `init_tick_size_spec` at `tick_size = 0` and
`tick_size = 1/100`. -/
theorem init_tick_size_spec_witness :
    ((0 : ℚ) ≤ 0 ∧ OrderBook.init "SIM" 0 = Except.error Err.valueError) ∧
    (0 < (1 : ℚ) / 100 ∧
      OrderBook.init "SIM" (1 / 100) = Except.ok (emptyBook "SIM" (1 / 100))) :=
  ⟨⟨le_rfl, (init_tick_size_spec "SIM" 0).1 le_rfl⟩,
   ⟨by norm_num, (init_tick_size_spec "SIM" (1 / 100)).2 (by norm_num)⟩⟩

/-! ## Claim C5: submit validation raises-iff -/

/-- C5: a submit raises `ValidationError` if and only if the quantity
is outside `(0, MAX_ORDER_QUANTITY]`, or the order type is not MARKET
and the price is below `MIN_PRICE`; in every other case (in particular
a MARKET order with any price, and any off-tick price at or above
`MIN_PRICE`) the submit succeeds. -/
theorem submit_validation_iff (st : OrderBook) (side : Side) (price : ℚ) (quantity : Int)
    (order_type : OrderType) (timestamp : ℚ) :
    ((submit_order st side price quantity order_type timestamp).2 =
        Except.error Err.validationError ↔
      (quantity ≤ 0 ∨ MAX_ORDER_QUANTITY < quantity ∨
        (order_type ≠ OrderType.MARKET ∧ price < MIN_PRICE))) ∧
    (¬ (quantity ≤ 0 ∨ MAX_ORDER_QUANTITY < quantity ∨
        (order_type ≠ OrderType.MARKET ∧ price < MIN_PRICE)) →
      ∃ o trades,
        (submit_order st side price quantity order_type timestamp).2 =
          Except.ok (o, trades)) := by
  by_cases h : validate_order_params price quantity order_type
  · refine ⟨⟨fun _ => h, fun _ => ?_⟩, fun hc => absurd h hc⟩
    simp [submit_order, if_pos h]
  · constructor
    · constructor
      · intro habs
        exfalso
        simp only [submit_order, if_neg h] at habs
        exact absurd habs (by simp)
      · intro hc; exact absurd hc h
    · intro _
      simp only [submit_order, if_neg h]
      exact ⟨_, _, rfl⟩

/-- Witness for `submit_validation_iff`: a well-formed LIMIT submit is
accepted. -/
theorem submit_validation_iff_witness :
    ¬ ((5 : Int) ≤ 0 ∨ MAX_ORDER_QUANTITY < 5 ∨
        (OrderType.LIMIT ≠ OrderType.MARKET ∧ (1 : ℚ) < MIN_PRICE)) ∧
    ∃ o trades,
      (submit_order (emptyBook "SIM" (1 / 100)) Side.BUY 1 5 OrderType.LIMIT 0).2 =
        Except.ok (o, trades) :=
  ⟨by norm_num [MIN_PRICE_eq, MAX_ORDER_QUANTITY],
   (submit_validation_iff (emptyBook "SIM" (1 / 100)) Side.BUY 1 5 OrderType.LIMIT 0).2
     (by norm_num [MIN_PRICE_eq, MAX_ORDER_QUANTITY])⟩

/-! ## Claim C6: atomicity of rejected commands -/

/-- C6: every submit that raises (necessarily `ValidationError`) leaves
the book state — sides, registry, trade log and both id counters —
unchanged, so no order id is consumed and nothing is registered; and
every cancel that raises (`NotFound` or `ValidationError`) leaves the
book state unchanged. -/
theorem rejected_commands_atomic :
    (∀ st side price quantity order_type timestamp e,
      (submit_order st side price quantity order_type timestamp).2 = Except.error e →
      (submit_order st side price quantity order_type timestamp).1 = st) ∧
    (∀ st order_id e,
      (cancel_order st order_id).2 = Except.error e →
      (cancel_order st order_id).1 = st) := by
  constructor
  · intro st side price quantity order_type timestamp e h
    by_cases hv : validate_order_params price quantity order_type
    · simp [submit_order, if_pos hv]
    · exfalso
      simp only [submit_order, if_neg hv] at h
      exact absurd h (by simp)
  · intro st order_id e h
    unfold cancel_order at h ⊢
    cases hf : findOrder st.orders order_id with
    | none => simp [hf]
    | some o =>
      by_cases hc : validate_cancellable o
      · simp [hf, hc]
      · exfalso
        simp only [hf, if_neg hc] at h
        exact absurd h (by simp)

/-- Witness for `rejected_commands_atomic`: a zero-quantity submit and
an unknown-id cancel both leave the empty book unchanged. -/
theorem rejected_commands_atomic_witness :
    (submit_order (emptyBook "SIM" (1 / 100)) Side.BUY 1 0 OrderType.LIMIT 0).1 =
      emptyBook "SIM" (1 / 100) ∧
    (cancel_order (emptyBook "SIM" (1 / 100)) 7).1 = emptyBook "SIM" (1 / 100) := by
  have hv : validate_order_params 1 0 OrderType.LIMIT := Or.inl le_rfl
  constructor
  · exact rejected_commands_atomic.1 (emptyBook "SIM" (1 / 100)) Side.BUY 1 0
      OrderType.LIMIT 0 Err.validationError (by simp only [submit_order, if_pos hv])
  · exact rejected_commands_atomic.2 (emptyBook "SIM" (1 / 100)) 7 Err.notFound rfl

/-! ## Claim C4: cancel semantics -/

theorem findQ_eq_none (m : SideMap) (p : ℚ) (h : p ∉ m.map Prod.fst) : findQ m p = none := by
  induction m with
  | nil => rfl
  | cons pq rest ih =>
    simp only [List.map_cons, List.mem_cons] at h
    push_neg at h
    have h1 : pq.1 ≠ p := fun hh => h.1 hh.symm
    simp [findQ, h1, ih h.2]

theorem remove_from_book_side_cons_eq (pq : ℚ × List Nat) (rest : SideMap) (oid : Nat) :
    remove_from_book_side (pq :: rest) pq.1 oid =
      (if (pq.2.filter (fun x => decide (x ≠ oid))).isEmpty then rest
       else (pq.1, pq.2.filter (fun x => decide (x ≠ oid))) :: rest) := by
  simp [remove_from_book_side]

theorem remove_from_book_side_cons_ne (pq : ℚ × List Nat) (rest : SideMap) (price : ℚ)
    (oid : Nat) (h : pq.1 ≠ price) :
    remove_from_book_side (pq :: rest) price oid =
      pq :: remove_from_book_side rest price oid := by
  simp [remove_from_book_side, h]

theorem findQ_remove_other (m : SideMap) (price : ℚ) (oid : Nat) (p : ℚ)
    (hp : p ≠ price) :
    findQ (remove_from_book_side m price oid) p = findQ m p := by
  induction m with
  | nil => rfl
  | cons pq rest ih =>
    by_cases hq : pq.1 = price
    · subst hq
      have hps : pq.1 ≠ p := fun hh => hp hh.symm
      rw [remove_from_book_side_cons_eq]
      by_cases he : (pq.2.filter (fun x => decide (x ≠ oid))).isEmpty
      · rw [if_pos he]
        simp [findQ, hps]
      · rw [if_neg he]
        simp [findQ, hps]
    · rw [remove_from_book_side_cons_ne pq rest price oid hq]
      by_cases hpp : pq.1 = p
      · simp [findQ, hpp]
      · simp [findQ, hpp, ih]

theorem remove_from_book_side_of_absent (m : SideMap) (price : ℚ) (oid : Nat)
    (h : findQ m price = none) : remove_from_book_side m price oid = m := by
  induction m with
  | nil => rfl
  | cons pq rest ih =>
    by_cases hq : pq.1 = price
    · exfalso
      simp [findQ, hq] at h
    · rw [remove_from_book_side_cons_ne pq rest price oid hq]
      have h2 : findQ rest price = none := by
        simpa [findQ, hq] using h
      rw [ih h2]

theorem findQ_remove_at_some (m : SideMap) (price : ℚ) (oid : Nat) (q : List Nat)
    (hm : (m.map Prod.fst).Nodup) (h : findQ m price = some q) :
    findQ (remove_from_book_side m price oid) price =
      (if (q.filter (fun x => decide (x ≠ oid))).isEmpty then none
       else some (q.filter (fun x => decide (x ≠ oid)))) := by
  induction m with
  | nil => exact absurd h (by simp [findQ])
  | cons pq rest ih =>
    simp only [List.map_cons, List.nodup_cons] at hm
    obtain ⟨hp1, hrest⟩ := hm
    by_cases hq : pq.1 = price
    · subst hq
      have hq2 : q = pq.2 := by
        have := h
        simp [findQ] at this
        exact this.symm
      subst hq2
      rw [remove_from_book_side_cons_eq]
      by_cases he : (pq.2.filter (fun x => decide (x ≠ oid))).isEmpty
      · rw [if_pos he, if_pos he]
        exact findQ_eq_none rest pq.1 hp1
      · rw [if_neg he, if_neg he]
        simp [findQ]
    · rw [remove_from_book_side_cons_ne pq rest price oid hq]
      have h2 : findQ rest price = some q := by
        simpa [findQ, hq] using h
      have h3 : findQ (pq :: remove_from_book_side rest price oid) price =
          findQ (remove_from_book_side rest price oid) price := by
        simp [findQ, hq]
      rw [h3]
      exact ih hrest h2

theorem ownSide_orders_update (st : OrderBook) (l : List (Nat × Order)) (s : Side) :
    ownSide { st with orders := l } s = ownSide st s := by
  unfold ownSide; split <;> rfl

theorem ownSide_remove_from_book (st : OrderBook) (o : Order) :
    ownSide (remove_from_book st o) o.side =
      remove_from_book_side (ownSide st o.side) o.price o.order_id := by
  unfold ownSide remove_from_book
  by_cases h : o.side = Side.BUY <;> simp [h]

theorem oppSide_remove_from_book (st : OrderBook) (o : Order) :
    ownSide (remove_from_book st o) (oppOf o.side) = ownSide st (oppOf o.side) := by
  unfold ownSide oppOf remove_from_book
  by_cases h : o.side = Side.BUY <;> simp [h]

theorem remove_from_book_orders (st : OrderBook) (o : Order) :
    (remove_from_book st o).orders = st.orders := by
  unfold remove_from_book; split <;> rfl

theorem remove_from_book_trades (st : OrderBook) (o : Order) :
    (remove_from_book st o).trades = st.trades := by
  unfold remove_from_book; split <;> rfl

theorem remove_from_book_next_order_id (st : OrderBook) (o : Order) :
    (remove_from_book st o).next_order_id = st.next_order_id := by
  unfold remove_from_book; split <;> rfl

/-- C4: for every order id, cancel fails with `NotFound` when the id is
not registered; fails with `ValidationError` when the order's status is
`FILLED` or `CANCELLED`; otherwise it removes the order from its side's
queue at its current price (dropping the price level exactly when that
queue becomes empty, leaving every other price level, the other side,
the trade log and the id counter untouched), sets the status to
`CANCELLED`, and returns the updated order. -/
theorem cancel_order_spec (st : OrderBook) (oid : Nat) :
    (findOrder st.orders oid = none →
      cancel_order st oid = (st, Except.error Err.notFound)) ∧
    (∀ o, findOrder st.orders oid = some o →
      ((o.status = OrderStatus.FILLED ∨ o.status = OrderStatus.CANCELLED) →
        cancel_order st oid = (st, Except.error Err.validationError)) ∧
      (¬ (o.status = OrderStatus.FILLED ∨ o.status = OrderStatus.CANCELLED) →
        ((ownSide st o.side).map Prod.fst).Nodup →
        (cancel_order st oid).2 = Except.ok { o with status := OrderStatus.CANCELLED } ∧
        getOrder (cancel_order st oid).1 oid = { o with status := OrderStatus.CANCELLED } ∧
        (∀ p : ℚ, p ≠ o.price →
          findQ (ownSide (cancel_order st oid).1 o.side) p = findQ (ownSide st o.side) p) ∧
        (∀ q, findQ (ownSide st o.side) o.price = some q →
          findQ (ownSide (cancel_order st oid).1 o.side) o.price =
            (if (q.filter (fun x => decide (x ≠ o.order_id))).isEmpty then none
             else some (q.filter (fun x => decide (x ≠ o.order_id))))) ∧
        ownSide (cancel_order st oid).1 (oppOf o.side) = ownSide st (oppOf o.side) ∧
        (cancel_order st oid).1.trades = st.trades ∧
        (cancel_order st oid).1.next_order_id = st.next_order_id)) := by
  constructor
  · intro h
    unfold cancel_order
    rw [h]
  · intro o ho
    have hmatch : ∀ hnc : ¬ validate_cancellable o, cancel_order st oid =
        ({ remove_from_book st o with
            orders := setOrder (remove_from_book st o).orders oid
              { o with status := OrderStatus.CANCELLED } },
          Except.ok { o with status := OrderStatus.CANCELLED }) := by
      intro hnc
      unfold cancel_order
      rw [ho]
      dsimp only
      rw [if_neg hnc]
    constructor
    · intro hs
      unfold cancel_order
      rw [ho]
      dsimp only
      rw [if_pos (show validate_cancellable o from hs)]
    · intro hs hnd
      have hnc : ¬ validate_cancellable o := hs
      rw [hmatch hnc]
      dsimp only
      refine ⟨rfl, ?_, ?_, ?_, ?_, ?_, ?_⟩
      · unfold getOrder
        dsimp only
        rw [findOrder_setOrder_self]
        rfl
      · intro p hp
        rw [ownSide_orders_update, ownSide_remove_from_book]
        exact findQ_remove_other (ownSide st o.side) o.price o.order_id p hp
      · intro q hq
        rw [ownSide_orders_update, ownSide_remove_from_book]
        exact findQ_remove_at_some (ownSide st o.side) o.price o.order_id q hnd hq
      · rw [ownSide_orders_update, oppSide_remove_from_book]
      · exact remove_from_book_trades st o
      · exact remove_from_book_next_order_id st o

/-- A concrete resting order, used by witnesses. -/
abbrev c4Order : Order :=
  { order_id := 1, side := Side.BUY, price := 100, quantity := 10, remaining := 10,
    order_type := OrderType.LIMIT, timestamp := 1, status := OrderStatus.OPEN }

/-- A concrete book holding `c4Order` as its one resting bid. -/
abbrev c4Book : OrderBook :=
  { symbol := "SIM", tick_size := 1, bids := [(100, [1])], asks := [],
    orders := [(1, c4Order)], trades := [], next_order_id := 2, next_trade_id := 1 }

/-- Witness for `cancel_order_spec`: cancelling the resting bid of
`c4Book` succeeds and has the described effect. -/
theorem cancel_order_spec_witness :
    findOrder c4Book.orders 1 = some c4Order ∧
    (¬ (c4Order.status = OrderStatus.FILLED ∨ c4Order.status = OrderStatus.CANCELLED)) ∧
    ((ownSide c4Book c4Order.side).map Prod.fst).Nodup ∧
    ((cancel_order c4Book 1).2 = Except.ok { c4Order with status := OrderStatus.CANCELLED } ∧
      getOrder (cancel_order c4Book 1).1 1 = { c4Order with status := OrderStatus.CANCELLED } ∧
      (∀ p : ℚ, p ≠ c4Order.price →
        findQ (ownSide (cancel_order c4Book 1).1 c4Order.side) p =
          findQ (ownSide c4Book c4Order.side) p) ∧
      (∀ q, findQ (ownSide c4Book c4Order.side) c4Order.price = some q →
        findQ (ownSide (cancel_order c4Book 1).1 c4Order.side) c4Order.price =
          (if (q.filter (fun x => decide (x ≠ c4Order.order_id))).isEmpty then none
           else some (q.filter (fun x => decide (x ≠ c4Order.order_id))))) ∧
      ownSide (cancel_order c4Book 1).1 (oppOf c4Order.side) =
        ownSide c4Book (oppOf c4Order.side) ∧
      (cancel_order c4Book 1).1.trades = c4Book.trades ∧
      (cancel_order c4Book 1).1.next_order_id = c4Book.next_order_id) := by
  have hnd : ((ownSide c4Book c4Order.side).map Prod.fst).Nodup := by
    simp [ownSide, c4Book, c4Order]
  refine ⟨rfl, by decide, hnd, ?_⟩
  exact ((cancel_order_spec c4Book 1).2 c4Order rfl).2 (by decide) hnd

/-! ## State-effect lemmas for the matcher -/

theorem execute_trade_bids (st : OrderBook) (a r : Nat) (p : ℚ) (q : Int) :
    (execute_trade st a r p q).1.bids = st.bids := rfl

theorem execute_trade_asks (st : OrderBook) (a r : Nat) (p : ℚ) (q : Int) :
    (execute_trade st a r p q).1.asks = st.asks := rfl

theorem execute_trade_next_order_id (st : OrderBook) (a r : Nat) (p : ℚ) (q : Int) :
    (execute_trade st a r p q).1.next_order_id = st.next_order_id := rfl

theorem execute_trade_trades (st : OrderBook) (a r : Nat) (p : ℚ) (q : Int) :
    (execute_trade st a r p q).1.trades = st.trades ++ [(execute_trade st a r p q).2] := rfl

theorem getOrder_execute_trade_other (st : OrderBook) (a r : Nat) (p : ℚ) (q : Int)
    (x : Nat) (hx1 : x ≠ a) (hx2 : x ≠ r) :
    getOrder (execute_trade st a r p q).1 x = getOrder st x := by
  unfold getOrder execute_trade
  dsimp only
  rw [findOrder_setOrder_other _ _ _ _ hx2, findOrder_setOrder_other _ _ _ _ hx1]

theorem getOrder_execute_trade_agg (st : OrderBook) (a r : Nat) (p : ℚ) (q : Int)
    (har : r ≠ a) :
    getOrder (execute_trade st a r p q).1 a =
      update_order_status
        { getOrder st a with remaining := (getOrder st a).remaining - q } := by
  unfold getOrder execute_trade
  dsimp only
  rw [findOrder_setOrder_other _ _ _ _ (Ne.symm har), findOrder_setOrder_self]
  rfl

theorem getOrder_execute_trade_rest (st : OrderBook) (a r : Nat) (p : ℚ) (q : Int) :
    getOrder (execute_trade st a r p q).1 r =
      update_order_status
        { getOrder st r with remaining := (getOrder st r).remaining - q } := by
  unfold getOrder execute_trade
  dsimp only
  rw [findOrder_setOrder_self]
  rfl

theorem fill_at_price_nil (st : OrderBook) (a : Nat) (p : ℚ) :
    fill_at_price st a [] p = (st, [], []) := rfl

theorem fill_at_price_cons_break (st : OrderBook) (a r : Nat) (rest : List Nat) (p : ℚ)
    (h : (getOrder st a).remaining ≤ 0) :
    fill_at_price st a (r :: rest) p = (st, [], r :: rest) := by
  unfold fill_at_price
  exact if_pos h

theorem fill_at_price_cons (st : OrderBook) (a r : Nat) (rest : List Nat) (p : ℚ) :
    fill_at_price st a (r :: rest) p =
      (if (getOrder st a).remaining ≤ 0 then (st, [], r :: rest)
       else
        (let e := execute_trade st a r p
          (min (getOrder st a).remaining (getOrder st r).remaining)
         let k := fill_at_price e.1 a rest p
         if (getOrder e.1 r).remaining = 0 then (k.1, e.2 :: k.2.1, k.2.2)
         else (k.1, e.2 :: k.2.1, r :: k.2.2))) := by
  conv_lhs => unfold fill_at_price

theorem fill_at_price_cons_state (st : OrderBook) (a r : Nat) (rest : List Nat) (p : ℚ)
    (h : ¬ (getOrder st a).remaining ≤ 0) :
    (fill_at_price st a (r :: rest) p).1 =
      (fill_at_price
        (execute_trade st a r p (min (getOrder st a).remaining (getOrder st r).remaining)).1
        a rest p).1 := by
  rw [fill_at_price_cons, if_neg h]
  dsimp only
  split <;> rfl

theorem fill_at_price_cons_trades (st : OrderBook) (a r : Nat) (rest : List Nat) (p : ℚ)
    (h : ¬ (getOrder st a).remaining ≤ 0) :
    (fill_at_price st a (r :: rest) p).2.1 =
      (execute_trade st a r p (min (getOrder st a).remaining (getOrder st r).remaining)).2 ::
      (fill_at_price
        (execute_trade st a r p (min (getOrder st a).remaining (getOrder st r).remaining)).1
        a rest p).2.1 := by
  rw [fill_at_price_cons, if_neg h]
  dsimp only
  split <;> rfl

theorem fill_at_price_bids (a : Nat) (p : ℚ) :
    ∀ (q : List Nat) (st : OrderBook), (fill_at_price st a q p).1.bids = st.bids := by
  intro q
  induction q with
  | nil => intro st; rfl
  | cons r rest ih =>
    intro st
    by_cases h : (getOrder st a).remaining ≤ 0
    · rw [fill_at_price_cons_break st a r rest p h]
    · rw [fill_at_price_cons_state st a r rest p h]
      rw [ih]
      exact execute_trade_bids _ _ _ _ _

theorem fill_at_price_asks (a : Nat) (p : ℚ) :
    ∀ (q : List Nat) (st : OrderBook), (fill_at_price st a q p).1.asks = st.asks := by
  intro q
  induction q with
  | nil => intro st; rfl
  | cons r rest ih =>
    intro st
    by_cases h : (getOrder st a).remaining ≤ 0
    · rw [fill_at_price_cons_break st a r rest p h]
    · rw [fill_at_price_cons_state st a r rest p h]
      rw [ih]
      exact execute_trade_asks _ _ _ _ _

theorem fill_at_price_next_order_id (a : Nat) (p : ℚ) :
    ∀ (q : List Nat) (st : OrderBook),
      (fill_at_price st a q p).1.next_order_id = st.next_order_id := by
  intro q
  induction q with
  | nil => intro st; rfl
  | cons r rest ih =>
    intro st
    by_cases h : (getOrder st a).remaining ≤ 0
    · rw [fill_at_price_cons_break st a r rest p h]
    · rw [fill_at_price_cons_state st a r rest p h]
      rw [ih]
      exact execute_trade_next_order_id _ _ _ _ _

theorem fill_at_price_trades (a : Nat) (p : ℚ) :
    ∀ (q : List Nat) (st : OrderBook),
      (fill_at_price st a q p).1.trades = st.trades ++ (fill_at_price st a q p).2.1 := by
  intro q
  induction q with
  | nil => intro st; simp [fill_at_price_nil]
  | cons r rest ih =>
    intro st
    by_cases h : (getOrder st a).remaining ≤ 0
    · rw [fill_at_price_cons_break st a r rest p h]
      simp
    · rw [fill_at_price_cons_state st a r rest p h,
        fill_at_price_cons_trades st a r rest p h, ih, execute_trade_trades]
      simp

theorem fill_at_price_sublist (a : Nat) (p : ℚ) :
    ∀ (q : List Nat) (st : OrderBook), List.Sublist (fill_at_price st a q p).2.2 q := by
  intro q
  induction q with
  | nil => intro st; exact List.Sublist.refl _
  | cons r rest ih =>
    intro st
    unfold fill_at_price
    by_cases h : (getOrder st a).remaining ≤ 0
    · rw [if_pos h]
    · rw [if_neg h]
      dsimp only
      split
      · exact List.Sublist.cons r (ih _)
      · exact List.Sublist.cons₂ r (ih _)

theorem getOrder_fill_at_price_other (a : Nat) (p : ℚ) (x : Nat) (hxa : x ≠ a) :
    ∀ (q : List Nat) (st : OrderBook), x ∉ q →
      getOrder (fill_at_price st a q p).1 x = getOrder st x := by
  intro q
  induction q with
  | nil => intro st _; rfl
  | cons r rest ih =>
    intro st hq
    simp only [List.mem_cons] at hq
    push_neg at hq
    by_cases h : (getOrder st a).remaining ≤ 0
    · rw [fill_at_price_cons_break st a r rest p h]
    · rw [fill_at_price_cons_state st a r rest p h, ih _ hq.2]
      exact getOrder_execute_trade_other _ _ _ _ _ _ hxa hq.1

theorem staticPart_update (o : Order) (rem : Int) :
    staticPart (update_order_status { o with remaining := rem }) = staticPart o := by
  unfold update_order_status staticPart
  split_ifs <;> rfl

theorem staticPart_fill_at_price (a : Nat) (p : ℚ) :
    ∀ (q : List Nat) (st : OrderBook), (∀ r ∈ q, r ≠ a) →
      staticPart (getOrder (fill_at_price st a q p).1 a) = staticPart (getOrder st a) := by
  intro q
  induction q with
  | nil => intro st _; rfl
  | cons r rest ih =>
    intro st hq
    by_cases h : (getOrder st a).remaining ≤ 0
    · rw [fill_at_price_cons_break st a r rest p h]
    · rw [fill_at_price_cons_state st a r rest p h,
        ih _ (fun x hx => hq x (List.mem_cons_of_mem r hx))]
      rw [getOrder_execute_trade_agg _ _ _ _ _ (hq r (List.mem_cons_self r rest))]
      exact staticPart_update _ _

/-! ## State-effect lemmas for the price-level loop -/

theorem getOpp_setOpp (b : Bool) (st : OrderBook) (m : SideMap) :
    getOpp b (setOpp b st m) = m := by
  cases b <;> rfl

theorem setOpp_trades (b : Bool) (st : OrderBook) (m : SideMap) :
    (setOpp b st m).trades = st.trades := by
  cases b <;> rfl

theorem setOpp_orders (b : Bool) (st : OrderBook) (m : SideMap) :
    (setOpp b st m).orders = st.orders := by
  cases b <;> rfl

theorem setOpp_next_order_id (b : Bool) (st : OrderBook) (m : SideMap) :
    (setOpp b st m).next_order_id = st.next_order_id := by
  cases b <;> rfl

theorem getOpp_fill_at_price (b : Bool) (st : OrderBook) (a : Nat) (q : List Nat) (p : ℚ) :
    getOpp b (fill_at_price st a q p).1 = getOpp b st := by
  cases b
  · exact fill_at_price_bids a p q st
  · exact fill_at_price_asks a p q st

theorem getOrder_setOpp (b : Bool) (st : OrderBook) (m : SideMap) (x : Nat) :
    getOrder (setOpp b st m) x = getOrder st x := by
  cases b <;> rfl

theorem match_go_nil (b : Bool) (a : Nat) (st : OrderBook) :
    match_go b a st [] = (st, []) := rfl

theorem match_go_cons (b : Bool) (a : Nat) (st : OrderBook) (p : ℚ) (ps : List ℚ) :
    match_go b a st (p :: ps) =
      (if (getOrder st a).remaining ≤ 0 then (st, [])
       else if (getOrder st a).order_type ≠ OrderType.MARKET ∧
          priceGate b p (getOrder st a).price then (st, [])
       else
        (let q := (findQ (getOpp b st) p).getD []
         let k := fill_at_price st a q p
         let st2 := setOpp b k.1 (setQ (getOpp b k.1) p k.2.2)
         let m := match_go b a st2 ps
         (m.1, k.2.1 ++ m.2))) := by
  conv_lhs => unfold match_go

theorem match_go_cons_break1 (b : Bool) (a : Nat) (st : OrderBook) (p : ℚ) (ps : List ℚ)
    (h : (getOrder st a).remaining ≤ 0) :
    match_go b a st (p :: ps) = (st, []) := by
  rw [match_go_cons, if_pos h]

theorem match_go_cons_break2 (b : Bool) (a : Nat) (st : OrderBook) (p : ℚ) (ps : List ℚ)
    (h1 : ¬ (getOrder st a).remaining ≤ 0)
    (h2 : (getOrder st a).order_type ≠ OrderType.MARKET ∧
      priceGate b p (getOrder st a).price) :
    match_go b a st (p :: ps) = (st, []) := by
  unfold match_go
  rw [if_neg h1, if_pos h2]

theorem match_go_cons_step (b : Bool) (a : Nat) (st : OrderBook) (p : ℚ) (ps : List ℚ)
    (h1 : ¬ (getOrder st a).remaining ≤ 0)
    (h2 : ¬ ((getOrder st a).order_type ≠ OrderType.MARKET ∧
      priceGate b p (getOrder st a).price)) :
    match_go b a st (p :: ps) =
      ((match_go b a
          (setOpp b (fill_at_price st a ((findQ (getOpp b st) p).getD []) p).1
            (setQ (getOpp b (fill_at_price st a ((findQ (getOpp b st) p).getD []) p).1) p
              (fill_at_price st a ((findQ (getOpp b st) p).getD []) p).2.2)) ps).1,
        (fill_at_price st a ((findQ (getOpp b st) p).getD []) p).2.1 ++
        (match_go b a
          (setOpp b (fill_at_price st a ((findQ (getOpp b st) p).getD []) p).1
            (setQ (getOpp b (fill_at_price st a ((findQ (getOpp b st) p).getD []) p).1) p
              (fill_at_price st a ((findQ (getOpp b st) p).getD []) p).2.2)) ps).2) := by
  rw [match_go_cons, if_neg h1, if_neg h2]

theorem match_go_trades (b : Bool) (a : Nat) :
    ∀ (ps : List ℚ) (st : OrderBook),
      (match_go b a st ps).1.trades = st.trades ++ (match_go b a st ps).2 := by
  intro ps
  induction ps with
  | nil => intro st; simp [match_go_nil]
  | cons p rest ih =>
    intro st
    by_cases h1 : (getOrder st a).remaining ≤ 0
    · rw [match_go_cons_break1 b a st p rest h1]
      simp
    · by_cases h2 : (getOrder st a).order_type ≠ OrderType.MARKET ∧
        priceGate b p (getOrder st a).price
      · rw [match_go_cons_break2 b a st p rest h1 h2]
        simp
      · rw [match_go_cons_step b a st p rest h1 h2]
        dsimp only
        rw [ih, setOpp_trades, fill_at_price_trades]
        simp

theorem match_go_bids_true (a : Nat) :
    ∀ (ps : List ℚ) (st : OrderBook), (match_go true a st ps).1.bids = st.bids := by
  intro ps
  induction ps with
  | nil => intro st; rfl
  | cons p rest ih =>
    intro st
    by_cases h1 : (getOrder st a).remaining ≤ 0
    · rw [match_go_cons_break1 true a st p rest h1]
    · by_cases h2 : (getOrder st a).order_type ≠ OrderType.MARKET ∧
        priceGate true p (getOrder st a).price
      · rw [match_go_cons_break2 true a st p rest h1 h2]
      · rw [match_go_cons_step true a st p rest h1 h2]
        dsimp only
        rw [ih]
        exact fill_at_price_bids a p _ st

theorem match_go_asks_false (a : Nat) :
    ∀ (ps : List ℚ) (st : OrderBook), (match_go false a st ps).1.asks = st.asks := by
  intro ps
  induction ps with
  | nil => intro st; rfl
  | cons p rest ih =>
    intro st
    by_cases h1 : (getOrder st a).remaining ≤ 0
    · rw [match_go_cons_break1 false a st p rest h1]
    · by_cases h2 : (getOrder st a).order_type ≠ OrderType.MARKET ∧
        priceGate false p (getOrder st a).price
      · rw [match_go_cons_break2 false a st p rest h1 h2]
      · rw [match_go_cons_step false a st p rest h1 h2]
        dsimp only
        rw [ih]
        exact fill_at_price_asks a p _ st

theorem match_go_next_order_id (b : Bool) (a : Nat) :
    ∀ (ps : List ℚ) (st : OrderBook),
      (match_go b a st ps).1.next_order_id = st.next_order_id := by
  intro ps
  induction ps with
  | nil => intro st; rfl
  | cons p rest ih =>
    intro st
    by_cases h1 : (getOrder st a).remaining ≤ 0
    · rw [match_go_cons_break1 b a st p rest h1]
    · by_cases h2 : (getOrder st a).order_type ≠ OrderType.MARKET ∧
        priceGate b p (getOrder st a).price
      · rw [match_go_cons_break2 b a st p rest h1 h2]
      · rw [match_go_cons_step b a st p rest h1 h2]
        dsimp only
        rw [ih, setOpp_next_order_id]
        exact fill_at_price_next_order_id a p _ st

/-! ## Membership lemmas for side maps -/

theorem sideIds_cons (pq : ℚ × List Nat) (rest : SideMap) :
    sideIds (pq :: rest) = pq.2 ++ sideIds rest := rfl

theorem mem_getD_findQ (p : ℚ) (x : Nat) :
    ∀ (m : SideMap), x ∈ (findQ m p).getD [] → x ∈ sideIds m := by
  intro m
  induction m with
  | nil => intro h; simp [findQ] at h
  | cons pq rest ih =>
    intro h
    rw [sideIds_cons]
    by_cases hp : pq.1 = p
    · simp only [findQ, if_pos hp, Option.getD_some] at h
      exact List.mem_append_left _ h
    · simp only [findQ, if_neg hp] at h
      exact List.mem_append_right _ (ih h)

theorem mem_sideIds_setQ (p : ℚ) (q' : List Nat) (x : Nat) :
    ∀ (m : SideMap), x ∈ sideIds (setQ m p q') → x ∈ sideIds m ∨ x ∈ q' := by
  intro m
  induction m with
  | nil =>
    intro h
    simp only [setQ, sideIds_cons] at h
    right
    simpa [sideIds] using h
  | cons pq rest ih =>
    intro h
    by_cases hp : pq.1 = p
    · simp only [setQ, if_pos hp, sideIds_cons] at h
      rcases List.mem_append.mp h with h1 | h1
      · right; exact h1
      · left; rw [sideIds_cons]; exact List.mem_append_right _ h1
    · simp only [setQ, if_neg hp, sideIds_cons] at h
      rcases List.mem_append.mp h with h1 | h1
      · left; rw [sideIds_cons]; exact List.mem_append_left _ h1
      · rcases ih h1 with h2 | h2
        · left; rw [sideIds_cons]; exact List.mem_append_right _ h2
        · right; exact h2

theorem mem_sideIds_cleanup (m : SideMap) (x : Nat) :
    x ∈ sideIds (cleanup_empty_levels m) → x ∈ sideIds m := by
  intro h
  unfold sideIds cleanup_empty_levels at *
  rcases List.mem_flatten.mp h with ⟨l, hl, hx⟩
  rcases List.mem_map.mp hl with ⟨pq, hpq, hpq2⟩
  exact List.mem_flatten.mpr ⟨l, List.mem_map.mpr
    ⟨pq, (List.mem_filter.mp hpq).1, hpq2⟩, hx⟩

theorem not_mem_sideIds_match_go (b : Bool) (a x : Nat) :
    ∀ (ps : List ℚ) (st : OrderBook), x ∉ sideIds (getOpp b st) →
      x ∉ sideIds (getOpp b (match_go b a st ps).1) := by
  intro ps
  induction ps with
  | nil => intro st h; exact h
  | cons p rest ih =>
    intro st h
    by_cases h1 : (getOrder st a).remaining ≤ 0
    · rw [match_go_cons_break1 b a st p rest h1]
      exact h
    · by_cases h2 : (getOrder st a).order_type ≠ OrderType.MARKET ∧
        priceGate b p (getOrder st a).price
      · rw [match_go_cons_break2 b a st p rest h1 h2]
        exact h
      · rw [match_go_cons_step b a st p rest h1 h2]
        dsimp only
        apply ih
        rw [getOpp_setOpp]
        intro hmem
        rcases mem_sideIds_setQ p _ x _ hmem with h3 | h3
        · rw [getOpp_fill_at_price] at h3
          exact h h3
        · have h4 := (fill_at_price_sublist a p _ st).subset h3
          exact h (mem_getD_findQ p x _ h4)

theorem staticPart_match_go (b : Bool) (a : Nat) :
    ∀ (ps : List ℚ) (st : OrderBook), (∀ i ∈ sideIds (getOpp b st), i ≠ a) →
      staticPart (getOrder (match_go b a st ps).1 a) = staticPart (getOrder st a) := by
  intro ps
  induction ps with
  | nil => intro st _; rfl
  | cons p rest ih =>
    intro st hids
    by_cases h1 : (getOrder st a).remaining ≤ 0
    · rw [match_go_cons_break1 b a st p rest h1]
    · by_cases h2 : (getOrder st a).order_type ≠ OrderType.MARKET ∧
        priceGate b p (getOrder st a).price
      · rw [match_go_cons_break2 b a st p rest h1 h2]
      · rw [match_go_cons_step b a st p rest h1 h2]
        dsimp only
        have hq : ∀ r ∈ (findQ (getOpp b st) p).getD [], r ≠ a :=
          fun r hr => hids r (mem_getD_findQ p r _ hr)
        have hids2 : ∀ i ∈ sideIds (getOpp b
            (setOpp b (fill_at_price st a ((findQ (getOpp b st) p).getD []) p).1
              (setQ (getOpp b (fill_at_price st a ((findQ (getOpp b st) p).getD []) p).1) p
                (fill_at_price st a ((findQ (getOpp b st) p).getD []) p).2.2))), i ≠ a := by
          intro i hi
          rw [getOpp_setOpp] at hi
          rcases mem_sideIds_setQ p _ i _ hi with h3 | h3
          · rw [getOpp_fill_at_price] at h3
            exact hids i h3
          · have h4 := (fill_at_price_sublist a p _ st).subset h3
            exact hids i (mem_getD_findQ p i _ h4)
        rw [ih _ hids2, getOrder_setOpp]
        exact staticPart_fill_at_price a p _ st hq

/-! ## Composition to the public commands -/

theorem match_buy_trades (st : OrderBook) (a : Nat) :
    (match_buy st a).1.trades = st.trades ++ (match_buy st a).2 := by
  unfold match_buy
  dsimp only
  exact match_go_trades true a _ st

theorem match_sell_trades (st : OrderBook) (a : Nat) :
    (match_sell st a).1.trades = st.trades ++ (match_sell st a).2 := by
  unfold match_sell
  dsimp only
  exact match_go_trades false a _ st

theorem match_order_trades (st : OrderBook) (a : Nat) :
    (match_order st a).1.trades = st.trades ++ (match_order st a).2 := by
  unfold match_order
  split
  · exact match_buy_trades st a
  · exact match_sell_trades st a

theorem add_to_book_trades (st : OrderBook) (o : Order) :
    (add_to_book st o).trades = st.trades := by
  unfold add_to_book; split <;> rfl

theorem handle_post_match_trades (st : OrderBook) (a : Nat) (t : OrderType) :
    (handle_post_match st a t).trades = st.trades := by
  unfold handle_post_match
  dsimp only
  split
  · rfl
  · split
    · rfl
    · exact add_to_book_trades st _

theorem submit_order_trades (st : OrderBook) (side : Side) (price : ℚ) (quantity : Int)
    (order_type : OrderType) (timestamp : ℚ) (o : Order) (ts : List Trade)
    (h : (submit_order st side price quantity order_type timestamp).2 = Except.ok (o, ts)) :
    (submit_order st side price quantity order_type timestamp).1.trades =
      st.trades ++ ts := by
  by_cases hv : validate_order_params price quantity order_type
  · exfalso
    simp only [submit_order, if_pos hv] at h
    exact absurd h (by simp)
  · simp only [submit_order, if_neg hv] at h ⊢
    injection h with h1
    have h2 := congrArg Prod.snd h1
    dsimp only at h2
    rw [← h2, handle_post_match_trades, match_order_trades]

theorem cancel_order_trades (st : OrderBook) (oid : Nat) :
    (cancel_order st oid).1.trades = st.trades := by
  unfold cancel_order
  cases hf : findOrder st.orders oid with
  | none => rfl
  | some o =>
    dsimp only
    split
    · rfl
    · exact remove_from_book_trades st o

/-! ## Claim C9: snapshot isolation -/

/-- The book after submitting one resting sell. -/
abbrev c9Book1 : OrderBook :=
  (submit_order (emptyBook "SIM" 1) Side.SELL 100 5 OrderType.LIMIT 1).1

/-- The order value returned by that submit. -/
abbrev c9Order : Order :=
  okOrder (submit_order (emptyBook "SIM" 1) Side.SELL 100 5 OrderType.LIMIT 1).2

/-- The book after a second submit that fills the resting sell. -/
abbrev c9Book2 : OrderBook :=
  (submit_order c9Book1 Side.BUY 100 5 OrderType.LIMIT 2).1

/-- C9 counterexample: the source returns the live registry record
(`submit_order` returns `order`, the very object stored in
`self._orders`), so the fields observable through a previously
returned order value are the registry record's fields.  Submitting a
sell returns it with status `OPEN` and remaining 5; after a later
crossing buy, the registry record for the same id — the object the
first caller still holds — shows `FILLED` and remaining 0.  The
returned order value is therefore not isolated from later mutation. -/
theorem snapshot_isolation_counterexample :
    c9Order.order_id = 1 ∧
    c9Order.status = OrderStatus.OPEN ∧
    c9Order.remaining = 5 ∧
    getOrder c9Book1 1 = c9Order ∧
    (getOrder c9Book2 1).status = OrderStatus.FILLED ∧
    (getOrder c9Book2 1).remaining = 0 :=
  ⟨rfl, rfl, rfl, rfl, rfl, rfl⟩

/-- C9 amended: returned trade values are isolated — trades are
immutable records, each submit returns exactly the trades it appended
to the log, and no later submit or cancel rewrites existing log
entries (the log only grows at the end, and a cancel never touches it)
— but returned order values alias the live registry record, so a later
submit or cancel that fills or cancels the order is observable through
the earlier return (see the counterexample). -/
theorem trade_log_append_only :
    (∀ st side price quantity order_type timestamp o ts,
      (submit_order st side price quantity order_type timestamp).2 = Except.ok (o, ts) →
      (submit_order st side price quantity order_type timestamp).1.trades =
        st.trades ++ ts) ∧
    (∀ st side price quantity order_type timestamp e,
      (submit_order st side price quantity order_type timestamp).2 = Except.error e →
      (submit_order st side price quantity order_type timestamp).1.trades = st.trades) ∧
    (∀ st oid, (cancel_order st oid).1.trades = st.trades) := by
  refine ⟨submit_order_trades, ?_, cancel_order_trades⟩
  intro st side price quantity order_type timestamp e h
  by_cases hv : validate_order_params price quantity order_type
  · simp only [submit_order, if_pos hv]
  · exfalso
    simp only [submit_order, if_neg hv] at h
    exact absurd h (by simp)

/-- Witness for `trade_log_append_only` at concrete commands. -/
theorem trade_log_append_only_witness :
    ((submit_order (emptyBook "SIM" 1) Side.BUY 100 10 OrderType.LIMIT 1).2 =
        Except.ok (c4Order, []) ∧
      (submit_order (emptyBook "SIM" 1) Side.BUY 100 10 OrderType.LIMIT 1).1.trades =
        (emptyBook "SIM" 1).trades ++ []) ∧
    ((submit_order (emptyBook "SIM" 1) Side.BUY 1 0 OrderType.LIMIT 0).2 =
        Except.error Err.validationError ∧
      (submit_order (emptyBook "SIM" 1) Side.BUY 1 0 OrderType.LIMIT 0).1.trades =
        (emptyBook "SIM" 1).trades) ∧
    (cancel_order (emptyBook "SIM" 1) 7).1.trades = (emptyBook "SIM" 1).trades := by
  have h1 : (submit_order (emptyBook "SIM" 1) Side.BUY 100 10 OrderType.LIMIT 1).2 =
      Except.ok (c4Order, []) := rfl
  have hv : validate_order_params 1 0 OrderType.LIMIT := Or.inl le_rfl
  have h2 : (submit_order (emptyBook "SIM" 1) Side.BUY 1 0 OrderType.LIMIT 0).2 =
      Except.error Err.validationError := by
    simp only [submit_order, if_pos hv]
  exact ⟨⟨h1, trade_log_append_only.1 _ _ _ _ _ _ _ _ h1⟩,
    ⟨h2, trade_log_append_only.2.1 _ _ _ _ _ _ _ h2⟩,
    trade_log_append_only.2.2 (emptyBook "SIM" 1) 7⟩

/-! ## Claim C2: residual disposition -/

theorem findQ_setQ_self : ∀ (m : SideMap) (p : ℚ) (q : List Nat),
    findQ (setQ m p q) p = some q := by
  intro m
  induction m with
  | nil => intro p q; simp [setQ, findQ]
  | cons pq rest ih =>
    intro p q
    by_cases h : pq.1 = p
    · simp [setQ, h, findQ]
    · simp [setQ, h, findQ, ih]

theorem submit_order_ok_eq (st : OrderBook) (side : Side) (price : ℚ) (quantity : Int)
    (order_type : OrderType) (timestamp : ℚ)
    (hv : ¬ validate_order_params price quantity order_type) :
    submit_order st side price quantity order_type timestamp =
      ((handle_post_match
          (match_order (registerState st side price quantity order_type timestamp)
            st.next_order_id).1 st.next_order_id order_type),
        Except.ok
          ((getOrder
            (handle_post_match
              (match_order (registerState st side price quantity order_type timestamp)
                st.next_order_id).1 st.next_order_id order_type) st.next_order_id),
          (match_order (registerState st side price quantity order_type timestamp)
            st.next_order_id).2)) := by
  simp only [submit_order, if_neg hv]
  rfl

theorem getOrder_registerState (st : OrderBook) (side : Side) (price : ℚ) (quantity : Int)
    (order_type : OrderType) (timestamp : ℚ) :
    getOrder (registerState st side price quantity order_type timestamp) st.next_order_id =
      create_order st side price quantity order_type timestamp := by
  unfold getOrder registerState
  dsimp only
  rw [findOrder_setOrder_self]
  rfl

theorem staticPart_match_order (st : OrderBook) (a : Nat)
    (hasks : ∀ i ∈ sideIds st.asks, i ≠ a) (hbids : ∀ i ∈ sideIds st.bids, i ≠ a) :
    staticPart (getOrder (match_order st a).1 a) = staticPart (getOrder st a) := by
  unfold match_order
  split
  · unfold match_buy
    dsimp only
    exact staticPart_match_go true a _ st hasks
  · unfold match_sell
    dsimp only
    exact staticPart_match_go false a _ st hbids

theorem staticPart_handle_post_match (st : OrderBook) (a : Nat) (t : OrderType) :
    staticPart (getOrder (handle_post_match st a t) a) = staticPart (getOrder st a) := by
  unfold handle_post_match
  dsimp only
  split
  · rfl
  · split
    · unfold getOrder
      dsimp only
      rw [findOrder_setOrder_self]
      rfl
    · unfold add_to_book
      split <;> rfl

theorem getOrder_add_to_book (st : OrderBook) (o : Order) (x : Nat) :
    getOrder (add_to_book st o) x = getOrder st x := by
  unfold add_to_book; split <;> rfl

theorem add_to_book_orders (st : OrderBook) (o : Order) :
    (add_to_book st o).orders = st.orders := by
  unfold add_to_book; split <;> rfl

theorem getOrder_orders_update_self (st : OrderBook) (a : Nat) (v : Order) :
    getOrder { st with orders := setOrder st.orders a v } a = v := by
  unfold getOrder
  dsimp only
  rw [findOrder_setOrder_self]
  rfl

theorem handle_post_match_noresidual (st : OrderBook) (a : Nat) (t : OrderType)
    (h : (getOrder st a).remaining ≤ 0) : handle_post_match st a t = st := by
  unfold handle_post_match
  dsimp only
  rw [if_pos h]

theorem handle_post_match_limit (st : OrderBook) (a : Nat)
    (h : ¬ (getOrder st a).remaining ≤ 0) :
    handle_post_match st a OrderType.LIMIT = add_to_book st (getOrder st a) := by
  unfold handle_post_match
  dsimp only
  rw [if_neg h, if_neg (show ¬ (OrderType.LIMIT = OrderType.IOC ∨
    OrderType.LIMIT = OrderType.MARKET) by simp)]

theorem handle_post_match_cancel (st : OrderBook) (a : Nat) (t : OrderType)
    (ht : t = OrderType.IOC ∨ t = OrderType.MARKET)
    (h : ¬ (getOrder st a).remaining ≤ 0) :
    handle_post_match st a t =
      { st with
        orders := setOrder st.orders a { getOrder st a with status := OrderStatus.CANCELLED } }
    := by
  unfold handle_post_match
  dsimp only
  rw [if_neg h, if_pos ht]

theorem match_order_own (st : OrderBook) (a : Nat) :
    ownSide (match_order st a).1 (getOrder st a).side =
      ownSide st (getOrder st a).side := by
  unfold match_order ownSide
  by_cases h : (getOrder st a).side = Side.BUY
  · simp only [if_pos h]
    unfold match_buy
    dsimp only
    exact match_go_bids_true a _ st
  · simp only [if_neg h]
    unfold match_sell
    dsimp only
    exact match_go_asks_false a _ st

theorem match_order_sides_not_mem (st : OrderBook) (a x : Nat)
    (hxb : x ∉ sideIds st.bids) (hxa : x ∉ sideIds st.asks) :
    x ∉ sideIds (match_order st a).1.bids ∧ x ∉ sideIds (match_order st a).1.asks := by
  unfold match_order
  split
  · unfold match_buy
    dsimp only
    constructor
    · show x ∉ sideIds (match_go true a st _).1.bids
      rw [match_go_bids_true]
      exact hxb
    · intro hmem
      exact not_mem_sideIds_match_go true a x _ st hxa (mem_sideIds_cleanup _ _ hmem)
  · unfold match_sell
    dsimp only
    constructor
    · intro hmem
      exact not_mem_sideIds_match_go false a x _ st hxb (mem_sideIds_cleanup _ _ hmem)
    · show x ∉ sideIds (match_go false a st _).1.asks
      rw [match_go_asks_false]
      exact hxa

theorem add_to_book_own_findQ (st : OrderBook) (o : Order) :
    findQ (ownSide (add_to_book st o) o.side) o.price =
      some ((findQ (ownSide st o.side) o.price).getD [] ++ [o.order_id]) := by
  unfold add_to_book ownSide
  by_cases h : o.side = Side.BUY
  · simp only [if_pos h]
    exact findQ_setQ_self _ _ _
  · simp only [if_neg h]
    exact findQ_setQ_self _ _ _

/-- C2: for every accepted submit whose order has residual
`remaining > 0` after matching, a LIMIT order is appended at the back
of its own side's queue at its limit price, while an IOC or MARKET
order ends with status `CANCELLED` (even when partially filled, with
`remaining > 0` carrying the unfilled part) and its id is inserted
into no side queue. -/
theorem submit_residual_disposition (st : OrderBook) (side : Side) (price : ℚ)
    (quantity : Int) (order_type : OrderType) (timestamp : ℚ) (hWF : WFbook st)
    (o : Order) (ts : List Trade)
    (hok : (submit_order st side price quantity order_type timestamp).2 = Except.ok (o, ts))
    (hrem : 0 < o.remaining) :
    o.order_id = st.next_order_id ∧ o.price = price ∧ o.side = side ∧
    (order_type = OrderType.LIMIT →
      ∃ q0, findQ (ownSide (submit_order st side price quantity order_type timestamp).1 side)
        price = some (q0 ++ [o.order_id])) ∧
    ((order_type = OrderType.IOC ∨ order_type = OrderType.MARKET) →
      o.status = OrderStatus.CANCELLED ∧
      o.order_id ∉ sideIds (submit_order st side price quantity order_type timestamp).1.bids ∧
      o.order_id ∉ sideIds (submit_order st side price quantity order_type timestamp).1.asks)
    := by
  obtain ⟨hbk, hak, hbq, haq, hbi, hai, hreg⟩ := hWF
  by_cases hv : validate_order_params price quantity order_type
  · exfalso
    simp only [submit_order, if_pos hv] at hok
    exact absurd hok (by simp)
  · rw [submit_order_ok_eq st side price quantity order_type timestamp hv] at hok ⊢
    dsimp only at hok ⊢
    injection hok with hok1
    have ho : o = getOrder
        (handle_post_match
          (match_order (registerState st side price quantity order_type timestamp)
            st.next_order_id).1 st.next_order_id order_type) st.next_order_id :=
      (congrArg Prod.fst hok1).symm
    have hasks1 : ∀ i ∈ sideIds
        (registerState st side price quantity order_type timestamp).asks,
        i ≠ st.next_order_id := fun i hi => Nat.ne_of_lt (hai i hi)
    have hbids1 : ∀ i ∈ sideIds
        (registerState st side price quantity order_type timestamp).bids,
        i ≠ st.next_order_id := fun i hi => Nat.ne_of_lt (hbi i hi)
    have hstat : staticPart o =
        staticPart (create_order st side price quantity order_type timestamp) := by
      rw [ho, staticPart_handle_post_match,
        staticPart_match_order _ _ hasks1 hbids1, getOrder_registerState]
    have hid : o.order_id = st.next_order_id := congrArg (fun t => t.1) hstat
    have hsid : o.side = side := congrArg (fun t => t.2.1) hstat
    have hpr : o.price = price := congrArg (fun t => t.2.2.1) hstat
    have hr2 : ¬ (getOrder
        (match_order (registerState st side price quantity order_type timestamp)
          st.next_order_id).1 st.next_order_id).remaining ≤ 0 := by
      intro hle
      rw [ho, handle_post_match_noresidual _ _ _ hle] at hrem
      exact absurd hrem (not_lt.mpr hle)
    refine ⟨hid, hpr, hsid, ?_, ?_⟩
    · intro ht
      subst ht
      rw [handle_post_match_limit _ _ hr2]
      have hm := add_to_book_own_findQ
        (match_order (registerState st side price quantity OrderType.LIMIT timestamp)
          st.next_order_id).1
        (getOrder
          (match_order (registerState st side price quantity OrderType.LIMIT timestamp)
            st.next_order_id).1 st.next_order_id)
      have hstat2 : staticPart (getOrder
          (match_order (registerState st side price quantity OrderType.LIMIT timestamp)
            st.next_order_id).1 st.next_order_id) =
          staticPart (create_order st side price quantity OrderType.LIMIT timestamp) := by
        rw [staticPart_match_order _ _ hasks1 hbids1, getOrder_registerState]
      have hid2 : (getOrder
          (match_order (registerState st side price quantity OrderType.LIMIT timestamp)
            st.next_order_id).1 st.next_order_id).order_id = st.next_order_id :=
        congrArg (fun t => t.1) hstat2
      have hsid2 : (getOrder
          (match_order (registerState st side price quantity OrderType.LIMIT timestamp)
            st.next_order_id).1 st.next_order_id).side = side :=
        congrArg (fun t => t.2.1) hstat2
      have hpr2 : (getOrder
          (match_order (registerState st side price quantity OrderType.LIMIT timestamp)
            st.next_order_id).1 st.next_order_id).price = price :=
        congrArg (fun t => t.2.2.1) hstat2
      rw [hsid2, hpr2, hid2] at hm
      rw [hid]
      exact ⟨_, hm⟩
    · intro ht
      have hcancel := handle_post_match_cancel
        (match_order (registerState st side price quantity order_type timestamp)
          st.next_order_id).1 st.next_order_id order_type ht hr2
      rw [hcancel] at ho
      have hnb : st.next_order_id ∉ sideIds
          (registerState st side price quantity order_type timestamp).bids :=
        fun hmem => (Nat.ne_of_lt (hbi _ hmem)) rfl
      have hna : st.next_order_id ∉ sideIds
          (registerState st side price quantity order_type timestamp).asks :=
        fun hmem => (Nat.ne_of_lt (hai _ hmem)) rfl
      have hmm := match_order_sides_not_mem
        (registerState st side price quantity order_type timestamp)
        st.next_order_id st.next_order_id hnb hna
      refine ⟨?_, ?_, ?_⟩
      · rw [ho, getOrder_orders_update_self]
      · rw [hcancel, hid]
        exact hmm.1
      · rw [hcancel, hid]
        exact hmm.2

/-- Witness for `submit_residual_disposition`: a LIMIT buy into an
empty book rests with its full residual. -/
theorem submit_residual_disposition_witness :
    WFbook (emptyBook "SIM" 1) ∧
    (submit_order (emptyBook "SIM" 1) Side.BUY 100 10 OrderType.LIMIT 1).2 =
      Except.ok (c4Order, []) ∧
    0 < c4Order.remaining ∧
    (c4Order.order_id = (emptyBook "SIM" 1).next_order_id ∧ c4Order.price = 100 ∧
      c4Order.side = Side.BUY ∧
      (OrderType.LIMIT = OrderType.LIMIT →
        ∃ q0, findQ (ownSide
          (submit_order (emptyBook "SIM" 1) Side.BUY 100 10 OrderType.LIMIT 1).1 Side.BUY)
          100 = some (q0 ++ [c4Order.order_id])) ∧
      ((OrderType.LIMIT = OrderType.IOC ∨ OrderType.LIMIT = OrderType.MARKET) →
        c4Order.status = OrderStatus.CANCELLED ∧
        c4Order.order_id ∉ sideIds
          (submit_order (emptyBook "SIM" 1) Side.BUY 100 10 OrderType.LIMIT 1).1.bids ∧
        c4Order.order_id ∉ sideIds
          (submit_order (emptyBook "SIM" 1) Side.BUY 100 10 OrderType.LIMIT 1).1.asks)) :=
  ⟨by decide, rfl, by decide,
    submit_residual_disposition (emptyBook "SIM" 1) Side.BUY 100 10 OrderType.LIMIT 1
      (by decide) c4Order [] rfl (by decide)⟩

/-! ## Claim C7: VWAP -/

instance : IsTotal BookLevel (fun a b => a.price ≤ b.price) :=
  ⟨fun a b => le_total a.price b.price⟩

instance : IsTrans BookLevel (fun a b => a.price ≤ b.price) :=
  ⟨fun _ _ _ h1 h2 => le_trans h1 h2⟩

instance : IsTotal BookLevel (fun a b => b.price ≤ a.price) :=
  ⟨fun a b => le_total b.price a.price⟩

instance : IsTrans BookLevel (fun a b => b.price ≤ a.price) :=
  ⟨fun _ _ _ h1 h2 => le_trans h2 h1⟩

theorem aggregate_side_sorted_asc (st : OrderBook) (m : SideMap) :
    List.Pairwise (fun a b => a.price ≤ b.price) (aggregate_side st m false) := by
  unfold aggregate_side
  dsimp only
  exact List.sorted_insertionSort _ _

theorem aggregate_side_sorted_desc (st : OrderBook) (m : SideMap) :
    List.Pairwise (fun a b => b.price ≤ a.price) (aggregate_side st m true) := by
  unfold aggregate_side
  dsimp only
  exact List.sorted_insertionSort _ _

theorem compute_vwap_go_cons (l : BookLevel) (rest : List BookLevel) (rem : Int) (cost : ℚ) :
    compute_vwap_go (l :: rest) rem cost =
      (if rem - min rem l.quantity ≤ 0 then
        (rem - min rem l.quantity, cost + ((min rem l.quantity : Int) : ℚ) * l.price)
       else compute_vwap_go rest (rem - min rem l.quantity)
        (cost + ((min rem l.quantity : Int) : ℚ) * l.price)) := rfl

theorem stop_level_cons (l : BookLevel) (rest : List BookLevel) (rem : Int) :
    stop_level (l :: rest) rem =
      (if rem - min rem l.quantity ≤ 0 then some l
       else stop_level rest (rem - min rem l.quantity)) := rfl

theorem compute_vwap_go_insufficient :
    ∀ (levels : List BookLevel) (rem : Int) (cost : ℚ), 0 < rem →
      (∀ l ∈ levels, 0 ≤ l.quantity) →
      (0 < (compute_vwap_go levels rem cost).1 ↔
        (levels.map (fun l => l.quantity)).sum < rem) := by
  intro levels
  induction levels with
  | nil =>
    intro rem cost hrem _
    simpa [compute_vwap_go] using hrem
  | cons l rest ih =>
    intro rem cost hrem hq
    rw [compute_vwap_go_cons]
    by_cases hb : rem - min rem l.quantity ≤ 0
    · rw [if_pos hb]
      dsimp only
      have hml := min_le_left rem l.quantity
      have hq2 : rem ≤ l.quantity := by
        have := (le_min_iff.mp (by omega : rem ≤ min rem l.quantity)).2
        exact this
      have hsum0 : 0 ≤ (rest.map (fun l => l.quantity)).sum := by
        apply List.sum_nonneg
        intro x hx
        rcases List.mem_map.mp hx with ⟨y, hy, rfl⟩
        exact hq y (List.mem_cons_of_mem l hy)
      simp only [List.map_cons, List.sum_cons]
      constructor
      · intro h; omega
      · intro h; omega
    · rw [if_neg hb]
      have hrem' : 0 < rem - min rem l.quantity := by omega
      rw [ih (rem - min rem l.quantity) _ hrem'
        (fun x hx => hq x (List.mem_cons_of_mem l hx))]
      have hminq : min rem l.quantity = l.quantity := by
        rcases min_cases rem l.quantity with ⟨h4, _⟩ | ⟨h4, _⟩
        · rw [h4] at hb; omega
        · exact h4
      rw [hminq]
      simp only [List.map_cons, List.sum_cons]
      constructor <;> intro <;> omega

theorem compute_vwap_go_lower (lo : ℚ) :
    ∀ (levels : List BookLevel) (rem : Int) (cost : ℚ), 0 < rem →
      (∀ l ∈ levels, lo ≤ l.price) → (∀ l ∈ levels, 0 ≤ l.quantity) →
      (compute_vwap_go levels rem cost).1 ≤ 0 →
      cost + (rem : ℚ) * lo ≤ (compute_vwap_go levels rem cost).2 := by
  intro levels
  induction levels with
  | nil =>
    intro rem cost hrem _ _ hstop
    exfalso
    simp only [compute_vwap_go] at hstop
    omega
  | cons l rest ih =>
    intro rem cost hrem hp hq hstop
    rw [compute_vwap_go_cons] at hstop ⊢
    by_cases hb : rem - min rem l.quantity ≤ 0
    · rw [if_pos hb] at hstop ⊢
      dsimp only
      have hml := min_le_left rem l.quantity
      have hfr : min rem l.quantity = rem := by omega
      rw [hfr]
      have hlop : lo ≤ l.price := hp l (List.mem_cons_self l rest)
      have hc0 : (0 : ℚ) ≤ (rem : ℚ) := by exact_mod_cast hrem.le
      have := mul_le_mul_of_nonneg_left hlop hc0
      linarith
    · rw [if_neg hb] at hstop ⊢
      have hrem' : 0 < rem - min rem l.quantity := by omega
      have hstep := ih (rem - min rem l.quantity)
        (cost + ((min rem l.quantity : Int) : ℚ) * l.price) hrem'
        (fun x hx => hp x (List.mem_cons_of_mem l hx))
        (fun x hx => hq x (List.mem_cons_of_mem l hx)) hstop
      have hf0 : (0 : Int) ≤ min rem l.quantity :=
        le_min hrem.le (hq l (List.mem_cons_self l rest))
      have hlop : lo ≤ l.price := hp l (List.mem_cons_self l rest)
      have hf0q : (0 : ℚ) ≤ ((min rem l.quantity : Int) : ℚ) := by exact_mod_cast hf0
      have hmul := mul_le_mul_of_nonneg_left hlop hf0q
      have hcast : ((rem - min rem l.quantity : Int) : ℚ) =
          (rem : ℚ) - ((min rem l.quantity : Int) : ℚ) := by push_cast; ring
      rw [hcast] at hstep
      linarith

theorem compute_vwap_go_upper (hi : ℚ) :
    ∀ (levels : List BookLevel) (rem : Int) (cost : ℚ), 0 < rem →
      (∀ l ∈ levels, l.price ≤ hi) → (∀ l ∈ levels, 0 ≤ l.quantity) →
      (compute_vwap_go levels rem cost).1 ≤ 0 →
      (compute_vwap_go levels rem cost).2 ≤ cost + (rem : ℚ) * hi := by
  intro levels
  induction levels with
  | nil =>
    intro rem cost hrem _ _ hstop
    exfalso
    simp only [compute_vwap_go] at hstop
    omega
  | cons l rest ih =>
    intro rem cost hrem hp hq hstop
    rw [compute_vwap_go_cons] at hstop ⊢
    by_cases hb : rem - min rem l.quantity ≤ 0
    · rw [if_pos hb] at hstop ⊢
      dsimp only
      have hml := min_le_left rem l.quantity
      have hfr : min rem l.quantity = rem := by omega
      rw [hfr]
      have hlop : l.price ≤ hi := hp l (List.mem_cons_self l rest)
      have hc0 : (0 : ℚ) ≤ (rem : ℚ) := by exact_mod_cast hrem.le
      have := mul_le_mul_of_nonneg_left hlop hc0
      linarith
    · rw [if_neg hb] at hstop ⊢
      have hrem' : 0 < rem - min rem l.quantity := by omega
      have hstep := ih (rem - min rem l.quantity)
        (cost + ((min rem l.quantity : Int) : ℚ) * l.price) hrem'
        (fun x hx => hp x (List.mem_cons_of_mem l hx))
        (fun x hx => hq x (List.mem_cons_of_mem l hx)) hstop
      have hf0 : (0 : Int) ≤ min rem l.quantity :=
        le_min hrem.le (hq l (List.mem_cons_self l rest))
      have hlop : l.price ≤ hi := hp l (List.mem_cons_self l rest)
      have hf0q : (0 : ℚ) ≤ ((min rem l.quantity : Int) : ℚ) := by exact_mod_cast hf0
      have hmul := mul_le_mul_of_nonneg_left hlop hf0q
      have hcast : ((rem - min rem l.quantity : Int) : ℚ) =
          (rem : ℚ) - ((min rem l.quantity : Int) : ℚ) := by push_cast; ring
      rw [hcast] at hstep
      linarith

theorem compute_vwap_go_stop_upper :
    ∀ (levels : List BookLevel) (rem : Int) (cost : ℚ), 0 < rem →
      List.Pairwise (fun a b => a.price ≤ b.price) levels →
      (∀ l ∈ levels, 0 ≤ l.quantity) →
      (compute_vwap_go levels rem cost).1 ≤ 0 →
      ∃ lstop, stop_level levels rem = some lstop ∧ lstop ∈ levels ∧
        (compute_vwap_go levels rem cost).2 ≤ cost + (rem : ℚ) * lstop.price := by
  intro levels
  induction levels with
  | nil =>
    intro rem cost hrem _ _ hstop
    exfalso
    simp only [compute_vwap_go] at hstop
    omega
  | cons l rest ih =>
    intro rem cost hrem hsort hq hstop
    rw [compute_vwap_go_cons] at hstop ⊢
    rw [stop_level_cons]
    by_cases hb : rem - min rem l.quantity ≤ 0
    · rw [if_pos hb] at hstop
      rw [if_pos hb, if_pos hb]
      refine ⟨l, rfl, List.mem_cons_self l rest, ?_⟩
      dsimp only
      have hml := min_le_left rem l.quantity
      have hfr : min rem l.quantity = rem := by omega
      rw [hfr]
    · rw [if_neg hb] at hstop
      rw [if_neg hb, if_neg hb]
      have hrem' : 0 < rem - min rem l.quantity := by omega
      rcases ih (rem - min rem l.quantity)
        (cost + ((min rem l.quantity : Int) : ℚ) * l.price) hrem'
        (List.pairwise_cons.mp hsort).2
        (fun x hx => hq x (List.mem_cons_of_mem l hx)) hstop with ⟨ls, hs1, hs2, hs3⟩
      refine ⟨ls, hs1, List.mem_cons_of_mem l hs2, ?_⟩
      have hple : l.price ≤ ls.price := (List.pairwise_cons.mp hsort).1 ls hs2
      have hf0 : (0 : Int) ≤ min rem l.quantity :=
        le_min hrem.le (hq l (List.mem_cons_self l rest))
      have hf0q : (0 : ℚ) ≤ ((min rem l.quantity : Int) : ℚ) := by exact_mod_cast hf0
      have hmul := mul_le_mul_of_nonneg_left hple hf0q
      have hcast : ((rem - min rem l.quantity : Int) : ℚ) =
          (rem : ℚ) - ((min rem l.quantity : Int) : ℚ) := by push_cast; ring
      rw [hcast] at hs3
      linarith

theorem compute_vwap_go_stop_lower :
    ∀ (levels : List BookLevel) (rem : Int) (cost : ℚ), 0 < rem →
      List.Pairwise (fun a b => b.price ≤ a.price) levels →
      (∀ l ∈ levels, 0 ≤ l.quantity) →
      (compute_vwap_go levels rem cost).1 ≤ 0 →
      ∃ lstop, stop_level levels rem = some lstop ∧ lstop ∈ levels ∧
        cost + (rem : ℚ) * lstop.price ≤ (compute_vwap_go levels rem cost).2 := by
  intro levels
  induction levels with
  | nil =>
    intro rem cost hrem _ _ hstop
    exfalso
    simp only [compute_vwap_go] at hstop
    omega
  | cons l rest ih =>
    intro rem cost hrem hsort hq hstop
    rw [compute_vwap_go_cons] at hstop ⊢
    rw [stop_level_cons]
    by_cases hb : rem - min rem l.quantity ≤ 0
    · rw [if_pos hb] at hstop
      rw [if_pos hb, if_pos hb]
      refine ⟨l, rfl, List.mem_cons_self l rest, ?_⟩
      dsimp only
      have hml := min_le_left rem l.quantity
      have hfr : min rem l.quantity = rem := by omega
      rw [hfr]
    · rw [if_neg hb] at hstop
      rw [if_neg hb, if_neg hb]
      have hrem' : 0 < rem - min rem l.quantity := by omega
      rcases ih (rem - min rem l.quantity)
        (cost + ((min rem l.quantity : Int) : ℚ) * l.price) hrem'
        (List.pairwise_cons.mp hsort).2
        (fun x hx => hq x (List.mem_cons_of_mem l hx)) hstop with ⟨ls, hs1, hs2, hs3⟩
      refine ⟨ls, hs1, List.mem_cons_of_mem l hs2, ?_⟩
      have hple : ls.price ≤ l.price := (List.pairwise_cons.mp hsort).1 ls hs2
      have hf0 : (0 : Int) ≤ min rem l.quantity :=
        le_min hrem.le (hq l (List.mem_cons_self l rest))
      have hf0q : (0 : ℚ) ≤ ((min rem l.quantity : Int) : ℚ) := by exact_mod_cast hf0
      have hmul := mul_le_mul_of_nonneg_left hple hf0q
      have hcast : ((rem - min rem l.quantity : Int) : ℚ) =
          (rem : ℚ) - ((min rem l.quantity : Int) : ℚ) := by push_cast; ring
      rw [hcast] at hs3
      linarith

theorem compute_vwap_none_iff (levels : List BookLevel) (q : Int) (hq : 0 < q)
    (h0 : ∀ l ∈ levels, 0 ≤ l.quantity) :
    (compute_vwap levels q = Except.ok none ↔
      (levels.map (fun l => l.quantity)).sum < q) := by
  rw [← compute_vwap_go_insufficient levels q 0 hq h0]
  unfold compute_vwap
  constructor
  · intro h
    by_cases hk : 0 < (compute_vwap_go levels q 0).1
    · exact hk
    · exfalso
      rw [if_neg hk, if_neg (by omega : ¬ q = 0)] at h
      exact absurd h (by simp)
  · intro hk
    rw [if_pos hk]

theorem compute_vwap_some (levels : List BookLevel) (q : Int) (v : ℚ) (hq : 0 < q)
    (h : compute_vwap levels q = Except.ok (some v)) :
    v = (compute_vwap_go levels q 0).2 / (q : ℚ) ∧
      (compute_vwap_go levels q 0).1 ≤ 0 := by
  unfold compute_vwap at h
  by_cases hk : 0 < (compute_vwap_go levels q 0).1
  · exfalso
    rw [if_pos hk] at h
    exact absurd h (by simp)
  · rw [if_neg hk, if_neg (by omega : ¬ q = 0)] at h
    have hv : some ((compute_vwap_go levels q 0).2 / (q : ℚ)) = some v := by
      simpa using h
    exact ⟨(Option.some.inj hv).symm, not_lt.mp hk⟩

theorem compute_vwap_bounds_asc (levels : List BookLevel) (q : Int) (v : ℚ) (hq : 0 < q)
    (hsort : List.Pairwise (fun a b => a.price ≤ b.price) levels)
    (h0 : ∀ l ∈ levels, 0 ≤ l.quantity)
    (h : compute_vwap levels q = Except.ok (some v)) :
    ∃ l0 ls lstop, levels = l0 :: ls ∧ stop_level levels q = some lstop ∧
      l0.price ≤ v ∧ v ≤ lstop.price := by
  obtain ⟨hv, hk⟩ := compute_vwap_some levels q v hq h
  cases levels with
  | nil =>
    exfalso
    simp only [compute_vwap_go] at hk
    omega
  | cons l0 ls =>
    have hallo : ∀ l ∈ l0 :: ls, l0.price ≤ l.price := by
      intro l hl
      rcases List.mem_cons.mp hl with h1 | h1
      · rw [h1]
      · exact (List.pairwise_cons.mp hsort).1 l h1
    have hlow := compute_vwap_go_lower l0.price (l0 :: ls) q 0 hq hallo h0 hk
    rcases compute_vwap_go_stop_upper (l0 :: ls) q 0 hq hsort h0 hk with
      ⟨lstop, hs1, _, hs3⟩
    have hqpos : (0 : ℚ) < (q : ℚ) := by exact_mod_cast hq
    refine ⟨l0, ls, lstop, rfl, hs1, ?_, ?_⟩
    · rw [hv, le_div_iff hqpos]
      rw [zero_add] at hlow
      linarith [hlow]
    · rw [hv, div_le_iff hqpos]
      rw [zero_add] at hs3
      linarith [hs3]

theorem compute_vwap_bounds_desc (levels : List BookLevel) (q : Int) (v : ℚ) (hq : 0 < q)
    (hsort : List.Pairwise (fun a b => b.price ≤ a.price) levels)
    (h0 : ∀ l ∈ levels, 0 ≤ l.quantity)
    (h : compute_vwap levels q = Except.ok (some v)) :
    ∃ l0 ls lstop, levels = l0 :: ls ∧ stop_level levels q = some lstop ∧
      lstop.price ≤ v ∧ v ≤ l0.price := by
  obtain ⟨hv, hk⟩ := compute_vwap_some levels q v hq h
  cases levels with
  | nil =>
    exfalso
    simp only [compute_vwap_go] at hk
    omega
  | cons l0 ls =>
    have halhi : ∀ l ∈ l0 :: ls, l.price ≤ l0.price := by
      intro l hl
      rcases List.mem_cons.mp hl with h1 | h1
      · rw [h1]
      · exact (List.pairwise_cons.mp hsort).1 l h1
    have hup := compute_vwap_go_upper l0.price (l0 :: ls) q 0 hq halhi h0 hk
    rcases compute_vwap_go_stop_lower (l0 :: ls) q 0 hq hsort h0 hk with
      ⟨lstop, hs1, _, hs3⟩
    have hqpos : (0 : ℚ) < (q : ℚ) := by exact_mod_cast hq
    refine ⟨l0, ls, lstop, rfl, hs1, ?_, ?_⟩
    · rw [hv, le_div_iff hqpos]
      rw [zero_add] at hs3
      linarith [hs3]
    · rw [hv, div_le_iff hqpos]
      rw [zero_add] at hup
      linarith [hup]

/-- C7: for every side and quantity `q > 0`, `get_vwap` sweeps the
opposing aggregated levels in priority order (asks ascending for a
BUY, bids descending for a SELL — the levels list is sorted
accordingly), returns `None` exactly when the total opposing
aggregated depth is less than `q`, and otherwise returns the
accumulated cost of the sweep divided by `q`, a value lying within the
closed interval between the best opposing level's price and the price
of the level at which the sweep stops (the worst swept price). -/
theorem get_vwap_spec (st : OrderBook) (side : Side) (q : Int) (hq : 0 < q) :
    (if side = Side.BUY then
      List.Pairwise (fun a b => a.price ≤ b.price) (get_opposing_levels st side)
     else
      List.Pairwise (fun a b => b.price ≤ a.price) (get_opposing_levels st side)) ∧
    (get_vwap st side q = Except.ok none ↔
      ((get_opposing_levels st side).map (fun l => l.quantity)).sum < q) ∧
    (∀ v, get_vwap st side q = Except.ok (some v) →
      v = (compute_vwap_go (get_opposing_levels st side) q 0).2 / (q : ℚ) ∧
      ∃ l0 ls lstop, get_opposing_levels st side = l0 :: ls ∧
        stop_level (get_opposing_levels st side) q = some lstop ∧
        min l0.price lstop.price ≤ v ∧ v ≤ max l0.price lstop.price) := by
  have h0 : ∀ l ∈ get_opposing_levels st side, 0 ≤ l.quantity :=
    fun l hl => (get_opposing_levels_quantity_pos st side l hl).le
  refine ⟨?_, compute_vwap_none_iff _ q hq h0, ?_⟩
  · by_cases hs : side = Side.BUY
    · rw [if_pos hs]
      unfold get_opposing_levels
      rw [if_pos hs]
      exact aggregate_side_sorted_asc st st.asks
    · rw [if_neg hs]
      unfold get_opposing_levels
      rw [if_neg hs]
      exact aggregate_side_sorted_desc st st.bids
  · intro v hv
    refine ⟨(compute_vwap_some _ q v hq hv).1, ?_⟩
    by_cases hs : side = Side.BUY
    · have hsort : List.Pairwise (fun a b => a.price ≤ b.price)
          (get_opposing_levels st side) := by
        unfold get_opposing_levels
        rw [if_pos hs]
        exact aggregate_side_sorted_asc st st.asks
      rcases compute_vwap_bounds_asc _ q v hq hsort h0 hv with
        ⟨l0, ls, lstop, he, hstop, hb1, hb2⟩
      exact ⟨l0, ls, lstop, he, hstop,
        le_trans (min_le_left _ _) hb1, le_trans hb2 (le_max_right _ _)⟩
    · have hsort : List.Pairwise (fun a b => b.price ≤ a.price)
          (get_opposing_levels st side) := by
        unfold get_opposing_levels
        rw [if_neg hs]
        exact aggregate_side_sorted_desc st st.bids
      rcases compute_vwap_bounds_desc _ q v hq hsort h0 hv with
        ⟨l0, ls, lstop, he, hstop, hb1, hb2⟩
      exact ⟨l0, ls, lstop, he, hstop,
        le_trans (min_le_right _ _) hb1, le_trans hb2 (le_max_left _ _)⟩

/-- A concrete resting ask used by the vwap witness. -/
abbrev c7Ask : Order :=
  { order_id := 1, side := Side.SELL, price := 100, quantity := 10, remaining := 10,
    order_type := OrderType.LIMIT, timestamp := 1, status := OrderStatus.OPEN }

/-- A concrete book with one resting ask, used by the vwap witness. -/
abbrev c7Book : OrderBook :=
  { symbol := "SIM", tick_size := 1, bids := [], asks := [(100, [1])],
    orders := [(1, c7Ask)], trades := [], next_order_id := 2, next_trade_id := 1 }

/-- Witness for `get_vwap_spec`: one resting ask of 10 units at price
100, swept for quantity 1. -/
theorem get_vwap_spec_witness :
    (0 : Int) < 1 ∧
    ((if Side.BUY = Side.BUY then
        List.Pairwise (fun a b => a.price ≤ b.price) (get_opposing_levels c7Book Side.BUY)
      else
        List.Pairwise (fun a b => b.price ≤ a.price) (get_opposing_levels c7Book Side.BUY)) ∧
      (get_vwap c7Book Side.BUY 1 = Except.ok none ↔
        ((get_opposing_levels c7Book Side.BUY).map (fun l => l.quantity)).sum < 1) ∧
      (∀ v, get_vwap c7Book Side.BUY 1 = Except.ok (some v) →
        v = (compute_vwap_go (get_opposing_levels c7Book Side.BUY) 1 0).2 / ((1 : Int) : ℚ) ∧
        ∃ l0 ls lstop, get_opposing_levels c7Book Side.BUY = l0 :: ls ∧
          stop_level (get_opposing_levels c7Book Side.BUY) 1 = some lstop ∧
          min l0.price lstop.price ≤ v ∧ v ≤ max l0.price lstop.price)) :=
  ⟨by decide, get_vwap_spec c7Book Side.BUY 1 (by decide)⟩

/-! ## Claim C1: trace-level lemmas for the fill loop -/

theorem update_order_status_remaining (o : Order) :
    (update_order_status o).remaining = o.remaining := by
  unfold update_order_status
  split_ifs <;> rfl

theorem fill_trace_nil (st : OrderBook) (a : Nat) (p : ℚ) :
    fill_trace st a [] p = [] := rfl

theorem fill_trace_cons (st : OrderBook) (a r : Nat) (rest : List Nat) (p : ℚ) :
    fill_trace st a (r :: rest) p =
      (if (getOrder st a).remaining ≤ 0 then []
       else
        (st, (execute_trade st a r p
          (min (getOrder st a).remaining (getOrder st r).remaining)).2) ::
        fill_trace (execute_trade st a r p
          (min (getOrder st a).remaining (getOrder st r).remaining)).1 a rest p) := rfl

theorem fill_at_price_trace_agree (a : Nat) (p : ℚ) :
    ∀ (q : List Nat) (st : OrderBook),
      (fill_at_price st a q p).2.1 = (fill_trace st a q p).map Prod.snd := by
  intro q
  induction q with
  | nil => intro st; rfl
  | cons r rest ih =>
    intro st
    rw [fill_trace_cons]
    by_cases h : (getOrder st a).remaining ≤ 0
    · rw [fill_at_price_cons_break st a r rest p h, if_pos h]
      rfl
    · rw [fill_at_price_cons_trades st a r rest p h, if_neg h, List.map_cons, ih]

theorem fill_trace_mem_agg_pos (st : OrderBook) (a : Nat) (q : List Nat) (p : ℚ)
    (pt : OrderBook × Trade) (h : pt ∈ fill_trace st a q p) :
    0 < (getOrder st a).remaining := by
  cases q with
  | nil => exact absurd h (by simp [fill_trace_nil])
  | cons r rest =>
    rw [fill_trace_cons] at h
    by_cases hb : (getOrder st a).remaining ≤ 0
    · rw [if_pos hb] at h
      exact absurd h (by simp)
    · omega

theorem fill_trace_pre_sides (a : Nat) (p : ℚ) :
    ∀ (q : List Nat) (st : OrderBook), ∀ pt ∈ fill_trace st a q p,
      pt.1.asks = st.asks ∧ pt.1.bids = st.bids := by
  intro q
  induction q with
  | nil => intro st pt h; exact absurd h (by simp [fill_trace_nil])
  | cons r rest ih =>
    intro st pt h
    rw [fill_trace_cons] at h
    by_cases hb : (getOrder st a).remaining ≤ 0
    · rw [if_pos hb] at h
      exact absurd h (by simp)
    · rw [if_neg hb] at h
      rcases List.mem_cons.mp h with h1 | h1
      · rw [h1]
        exact ⟨rfl, rfl⟩
      · have := ih _ pt h1
        rw [execute_trade_asks, execute_trade_bids] at this
        exact this

theorem fill_trace_pre_getOrder_out (a : Nat) (p : ℚ) (x : Nat) (hxa : x ≠ a) :
    ∀ (q : List Nat) (st : OrderBook), x ∉ q → ∀ pt ∈ fill_trace st a q p,
      getOrder pt.1 x = getOrder st x := by
  intro q
  induction q with
  | nil => intro st _ pt h; exact absurd h (by simp [fill_trace_nil])
  | cons r rest ih =>
    intro st hq pt h
    simp only [List.mem_cons] at hq
    push_neg at hq
    rw [fill_trace_cons] at h
    by_cases hb : (getOrder st a).remaining ≤ 0
    · rw [if_pos hb] at h
      exact absurd h (by simp)
    · rw [if_neg hb] at h
      rcases List.mem_cons.mp h with h1 | h1
      · rw [h1]
      · rw [ih _ hq.2 pt h1]
        exact getOrder_execute_trade_other _ _ _ _ _ _ hxa hq.1

theorem fill_trace_price (a : Nat) (p : ℚ) :
    ∀ (q : List Nat) (st : OrderBook), ∀ pt ∈ fill_trace st a q p,
      pt.2.price = p := by
  intro q
  induction q with
  | nil => intro st pt h; exact absurd h (by simp [fill_trace_nil])
  | cons r rest ih =>
    intro st pt h
    rw [fill_trace_cons] at h
    by_cases hb : (getOrder st a).remaining ≤ 0
    · rw [if_pos hb] at h
      exact absurd h (by simp)
    · rw [if_neg hb] at h
      rcases List.mem_cons.mp h with h1 | h1
      · rw [h1]
        rfl
      · exact ih _ pt h1

theorem restId_execute_trade (st : OrderBook) (a r : Nat) (p : ℚ) (f : Int)
    (h : r ≠ a) : restId a (execute_trade st a r p f).2 = r := by
  unfold restId execute_trade
  dsimp only
  by_cases hs : (getOrder st a).side = Side.BUY
  · simp [hs]
  · simp [hs, h]

theorem fill_at_price_break_state (a : Nat) (p : ℚ) (q : List Nat) (st : OrderBook)
    (h : (getOrder st a).remaining ≤ 0) : (fill_at_price st a q p).1 = st := by
  cases q with
  | nil => rfl
  | cons r rest => rw [fill_at_price_cons_break st a r rest p h]

theorem fill_at_price_cons_queue (st : OrderBook) (a r : Nat) (rest : List Nat) (p : ℚ)
    (h : ¬ (getOrder st a).remaining ≤ 0) :
    (fill_at_price st a (r :: rest) p).2.2 =
      (if (getOrder (execute_trade st a r p
          (min (getOrder st a).remaining (getOrder st r).remaining)).1 r).remaining = 0 then
        (fill_at_price (execute_trade st a r p
          (min (getOrder st a).remaining (getOrder st r).remaining)).1 a rest p).2.2
       else r :: (fill_at_price (execute_trade st a r p
          (min (getOrder st a).remaining (getOrder st r).remaining)).1 a rest p).2.2) := by
  rw [fill_at_price_cons, if_neg h]
  dsimp only
  by_cases hc : (getOrder (execute_trade st a r p
      (min (getOrder st a).remaining (getOrder st r).remaining)).1 r).remaining = 0
  · rw [if_pos hc, if_pos hc]
  · rw [if_neg hc, if_neg hc]

theorem fill_at_price_zero (a : Nat) (p : ℚ) :
    ∀ (q : List Nat) (st : OrderBook), (∀ r ∈ q, r ≠ a) →
      0 < (getOrder (fill_at_price st a q p).1 a).remaining →
      (fill_at_price st a q p).2.2 = [] := by
  intro q
  induction q with
  | nil => intro st _ _; rfl
  | cons r rest ih =>
    intro st hq hpos
    by_cases hb : (getOrder st a).remaining ≤ 0
    · rw [fill_at_price_cons_break st a r rest p hb] at hpos
      dsimp only at hpos
      omega
    · have hra : r ≠ a := hq r (List.mem_cons_self r rest)
      rw [fill_at_price_cons_state st a r rest p hb] at hpos
      rw [fill_at_price_cons_queue st a r rest p hb]
      by_cases hc : (getOrder (execute_trade st a r p
          (min (getOrder st a).remaining (getOrder st r).remaining)).1 r).remaining = 0
      · rw [if_pos hc]
        exact ih _ (fun x hx => hq x (List.mem_cons_of_mem r hx)) hpos
      · exfalso
        rw [getOrder_execute_trade_rest, update_order_status_remaining] at hc
        have hmin := min_cases (getOrder st a).remaining (getOrder st r).remaining
        rcases hmin with ⟨h4, _⟩ | ⟨h4, _⟩
        · -- min is the aggressor's remaining: aggressor exhausted, break next
          have hagg0 : (getOrder (execute_trade st a r p
              (min (getOrder st a).remaining (getOrder st r).remaining)).1 a).remaining
              = 0 := by
            rw [getOrder_execute_trade_agg _ _ _ _ _ hra, update_order_status_remaining]
            dsimp only
            rw [h4]
            omega
          rw [fill_at_price_break_state a p rest _ (by rw [hagg0])] at hpos
          rw [hagg0] at hpos
          omega
        · dsimp only at hc
          rw [h4] at hc
          omega

theorem fill_trace_time (a : Nat) (p : ℚ) :
    ∀ (q : List Nat) (st : OrderBook), (∀ r ∈ q, r ≠ a) → q.Nodup →
      ∀ pt ∈ fill_trace st a q p,
        restId a pt.2 ∈ q ∧
        ∀ r' ∈ q.takeWhile (fun x => decide (x ≠ restId a pt.2)),
          (getOrder pt.1 r').remaining = 0 := by
  intro q
  induction q with
  | nil => intro st _ _ pt h; exact absurd h (by simp [fill_trace_nil])
  | cons r rest ih =>
    intro st hq hnd pt h
    rw [fill_trace_cons] at h
    by_cases hb : (getOrder st a).remaining ≤ 0
    · rw [if_pos hb] at h
      exact absurd h (by simp)
    · rw [if_neg hb] at h
      have hra : r ≠ a := hq r (List.mem_cons_self r rest)
      rcases List.mem_cons.mp h with h1 | h1
      · subst h1
        dsimp only
        rw [restId_execute_trade st a r p _ hra]
        refine ⟨List.mem_cons_self r rest, ?_⟩
        intro r' hr'
        exfalso
        rw [List.takeWhile_cons] at hr'
        simp only [decide_eq_true_eq] at hr'
        rw [if_neg (by simp)] at hr'
        exact absurd hr' (by simp)
      · have hrest := ih _ (fun x hx => hq x (List.mem_cons_of_mem r hx))
          (List.nodup_cons.mp hnd).2 pt h1
        have hagg := fill_trace_mem_agg_pos _ a rest p pt h1
        have hrid : restId a pt.2 ∈ rest := hrest.1
        have hrne : r ≠ restId a pt.2 := by
          intro heq
          exact (List.nodup_cons.mp hnd).1 (heq ▸ hrid)
        refine ⟨List.mem_cons_of_mem r hrid, ?_⟩
        intro r' hr'
        rw [List.takeWhile_cons] at hr'
        rw [if_pos (by simpa using hrne)] at hr'
        rcases List.mem_cons.mp hr' with h2 | h2
        · -- the head r was fully consumed by the trade just before
          rw [h2]
          have hr0 : (getOrder (execute_trade st a r p (min (getOrder st a).remaining (getOrder st r).remaining)).1 r).remaining = 0 := by
            rw [getOrder_execute_trade_rest, update_order_status_remaining]
            rw [getOrder_execute_trade_agg _ _ _ _ _ hra,
              update_order_status_remaining] at hagg
            dsimp only at hagg ⊢
            rcases min_cases (getOrder st a).remaining (getOrder st r).remaining with
              ⟨h4, _⟩ | ⟨h4, _⟩
            · exfalso
              rw [h4] at hagg
              omega
            · rw [h4]
              omega
          rw [fill_trace_pre_getOrder_out a p r hra rest _
            (List.nodup_cons.mp hnd).1 pt h1]
          exact hr0
        · exact hrest.2 r' h2

/-! ## Claim C1: trace-level lemmas for the price-level loop -/

theorem priceBefore_irrefl (b : Bool) (x : ℚ) : ¬ priceBefore b x x := by
  cases b <;> simp [priceBefore]

theorem priceBefore_asymm (b : Bool) (x y : ℚ) (h : priceBefore b x y) :
    ¬ priceBefore b y x := by
  cases b <;> simp [priceBefore] at h ⊢ <;> exact le_of_lt h

theorem match_trace_nil (b : Bool) (a : Nat) (st : OrderBook) :
    match_trace b a st [] = [] := rfl

theorem match_trace_cons (b : Bool) (a : Nat) (st : OrderBook) (p : ℚ) (ps : List ℚ) :
    match_trace b a st (p :: ps) =
      (if (getOrder st a).remaining ≤ 0 then []
       else if (getOrder st a).order_type ≠ OrderType.MARKET ∧
          priceGate b p (getOrder st a).price then []
       else
        (let q := (findQ (getOpp b st) p).getD []
         let k := fill_at_price st a q p
         let st2 := setOpp b k.1 (setQ (getOpp b k.1) p k.2.2)
         fill_trace st a q p ++ match_trace b a st2 ps)) := by
  conv_lhs => unfold match_trace

theorem match_trace_cons_break1 (b : Bool) (a : Nat) (st : OrderBook) (p : ℚ)
    (ps : List ℚ) (h : (getOrder st a).remaining ≤ 0) :
    match_trace b a st (p :: ps) = [] := by
  rw [match_trace_cons, if_pos h]

theorem match_trace_cons_break2 (b : Bool) (a : Nat) (st : OrderBook) (p : ℚ)
    (ps : List ℚ) (h1 : ¬ (getOrder st a).remaining ≤ 0)
    (h2 : (getOrder st a).order_type ≠ OrderType.MARKET ∧
      priceGate b p (getOrder st a).price) :
    match_trace b a st (p :: ps) = [] := by
  rw [match_trace_cons, if_neg h1, if_pos h2]

theorem match_trace_cons_step (b : Bool) (a : Nat) (st : OrderBook) (p : ℚ)
    (ps : List ℚ) (h1 : ¬ (getOrder st a).remaining ≤ 0)
    (h2 : ¬ ((getOrder st a).order_type ≠ OrderType.MARKET ∧
      priceGate b p (getOrder st a).price)) :
    match_trace b a st (p :: ps) =
      fill_trace st a ((findQ (getOpp b st) p).getD []) p ++
      match_trace b a
        (setOpp b (fill_at_price st a ((findQ (getOpp b st) p).getD []) p).1
          (setQ (getOpp b (fill_at_price st a ((findQ (getOpp b st) p).getD []) p).1) p
            (fill_at_price st a ((findQ (getOpp b st) p).getD []) p).2.2)) ps := by
  rw [match_trace_cons, if_neg h1, if_neg h2]

theorem match_trace_break (b : Bool) (a : Nat) (ps : List ℚ) (st : OrderBook)
    (h : (getOrder st a).remaining ≤ 0) : match_trace b a st ps = [] := by
  cases ps with
  | nil => rfl
  | cons p rest => exact match_trace_cons_break1 b a st p rest h

theorem match_go_trace_agree (b : Bool) (a : Nat) :
    ∀ (ps : List ℚ) (st : OrderBook),
      (match_go b a st ps).2 = (match_trace b a st ps).map Prod.snd := by
  intro ps
  induction ps with
  | nil => intro st; rfl
  | cons p rest ih =>
    intro st
    by_cases h1 : (getOrder st a).remaining ≤ 0
    · rw [match_go_cons_break1 b a st p rest h1, match_trace_cons_break1 b a st p rest h1]
      rfl
    · by_cases h2 : (getOrder st a).order_type ≠ OrderType.MARKET ∧
        priceGate b p (getOrder st a).price
      · rw [match_go_cons_break2 b a st p rest h1 h2,
          match_trace_cons_break2 b a st p rest h1 h2]
        rfl
      · rw [match_go_cons_step b a st p rest h1 h2,
          match_trace_cons_step b a st p rest h1 h2]
        dsimp only
        rw [List.map_append, ih, fill_at_price_trace_agree]

theorem keys_setQ (p : ℚ) (q' : List Nat) :
    ∀ (m : SideMap), (setQ m p q').map Prod.fst =
      (if p ∈ m.map Prod.fst then m.map Prod.fst else m.map Prod.fst ++ [p]) := by
  intro m
  induction m with
  | nil => simp [setQ]
  | cons pq rest ih =>
    by_cases hp : pq.1 = p
    · simp only [setQ, if_pos hp, List.map_cons]
      rw [if_pos (List.mem_cons.mpr (Or.inl hp.symm))]
      rw [hp]
    · simp only [setQ, if_neg hp, List.map_cons, ih]
      by_cases hm : p ∈ rest.map Prod.fst
      · rw [if_pos hm, if_pos (List.mem_cons.mpr (Or.inr hm))]
      · rw [if_neg hm, if_neg (fun hc => by
          rcases List.mem_cons.mp hc with h1 | h1
          · exact hp h1.symm
          · exact hm h1)]
        simp

theorem keys_setQ_nodup (p : ℚ) (q' : List Nat) (m : SideMap)
    (h : (m.map Prod.fst).Nodup) : ((setQ m p q').map Prod.fst).Nodup := by
  rw [keys_setQ]
  by_cases hm : p ∈ m.map Prod.fst
  · rw [if_pos hm]
    exact h
  · rw [if_neg hm]
    exact List.Nodup.append h (List.nodup_singleton p)
      (fun x hx hx2 => hm ((List.mem_singleton.mp hx2) ▸ hx))

theorem mem_setQ_elim (p : ℚ) (q' : List Nat) :
    ∀ (m : SideMap), (m.map Prod.fst).Nodup →
      ∀ pq ∈ setQ m p q', pq = (p, q') ∨ (pq ∈ m ∧ ¬ pq.1 = p) := by
  intro m
  induction m with
  | nil =>
    intro _ pq h
    simp only [setQ] at h
    left
    simpa using h
  | cons hd tl ih =>
    intro hnd pq h
    rw [List.map_cons, List.nodup_cons] at hnd
    by_cases hp : hd.1 = p
    · simp only [setQ, if_pos hp] at h
      rcases List.mem_cons.mp h with h1 | h1
      · left
        exact h1
      · right
        refine ⟨List.mem_cons_of_mem hd h1, ?_⟩
        intro hc
        apply hnd.1
        rw [hp, ← hc]
        exact List.mem_map.mpr ⟨pq, h1, rfl⟩
    · simp only [setQ, if_neg hp] at h
      rcases List.mem_cons.mp h with h1 | h1
      · right
        refine ⟨?_, ?_⟩
        · rw [h1]
          exact List.mem_cons_self hd tl
        · rw [h1]
          exact hp
      · rcases ih hnd.2 pq h1 with h2 | h2
        · left
          exact h2
        · right
          exact ⟨List.mem_cons_of_mem hd h2.1, h2.2⟩

theorem findQ_of_mem_nodup :
    ∀ (m : SideMap), (m.map Prod.fst).Nodup →
      ∀ pq ∈ m, findQ m pq.1 = some pq.2 := by
  intro m
  induction m with
  | nil => intro _ pq h; exact absurd h (List.not_mem_nil pq)
  | cons hd tl ih =>
    intro hnd pq h
    rw [List.map_cons, List.nodup_cons] at hnd
    rcases List.mem_cons.mp h with h1 | h1
    · rw [h1]
      simp [findQ]
    · have hne : ¬ hd.1 = pq.1 := by
        intro hc
        apply hnd.1
        rw [hc]
        exact List.mem_map.mpr ⟨pq, h1, rfl⟩
      simp only [findQ, if_neg hne]
      exact ih hnd.2 pq h1

theorem match_trace_priority (b : Bool) (a : Nat) :
    ∀ (ps : List ℚ) (st : OrderBook),
      List.Pairwise (priceBefore b) ps →
      ((getOpp b st).map Prod.fst).Nodup →
      (∀ i ∈ sideIds (getOpp b st), i ≠ a) →
      (∀ pq ∈ getOpp b st, ¬ pq.2.isEmpty = true → pq.1 ∈ ps) →
      ∀ pt ∈ match_trace b a st ps, ∀ pq ∈ getOpp b pt.1,
        priceBefore b pq.1 pt.2.price → ∀ rr ∈ pq.2,
          ¬ 0 < (getOrder pt.1 rr).remaining := by
  intro ps
  induction ps with
  | nil => intro st _ _ _ _ pt h; exact absurd h (by simp [match_trace_nil])
  | cons p rest ih =>
    intro st hsort hnd hids hcov pt h
    by_cases h1 : (getOrder st a).remaining ≤ 0
    · rw [match_trace_cons_break1 b a st p rest h1] at h
      exact absurd h (List.not_mem_nil pt)
    · by_cases h2 : (getOrder st a).order_type ≠ OrderType.MARKET ∧
        priceGate b p (getOrder st a).price
      · rw [match_trace_cons_break2 b a st p rest h1 h2] at h
        exact absurd h (List.not_mem_nil pt)
      · rw [match_trace_cons_step b a st p rest h1 h2] at h
        have hq : ∀ r ∈ (findQ (getOpp b st) p).getD [], r ≠ a :=
          fun r hr => hids r (mem_getD_findQ p r _ hr)
        rcases List.mem_append.mp h with hf | hm
        · have hpre := fill_trace_pre_sides a p _ st pt hf
          have hprice := fill_trace_price a p _ st pt hf
          have hopp : getOpp b pt.1 = getOpp b st := by
            cases b <;> simp [getOpp, hpre.1, hpre.2]
          intro pq hpq hbet rr hrr
          exfalso
          rw [hopp] at hpq
          rw [hprice] at hbet
          have hne : ¬ pq.2.isEmpty = true := by
            intro he
            rw [List.isEmpty_iff] at he
            rw [he] at hrr
            exact absurd hrr (List.not_mem_nil rr)
          rcases List.mem_cons.mp (hcov pq hpq hne) with hc | hc
          · rw [hc] at hbet
            exact priceBefore_irrefl b p hbet
          · exact priceBefore_asymm b p pq.1
              ((List.pairwise_cons.mp hsort).1 pq.1 hc) hbet
        · by_cases hq2 : (fill_at_price st a ((findQ (getOpp b st) p).getD []) p).2.2 = []
          · refine ih _ ?_ ?_ ?_ ?_ pt hm
            · exact (List.pairwise_cons.mp hsort).2
            · rw [getOpp_setOpp]
              apply keys_setQ_nodup
              rw [getOpp_fill_at_price]
              exact hnd
            · intro i hi
              rw [getOpp_setOpp] at hi
              rcases mem_sideIds_setQ p _ i _ hi with h3 | h3
              · rw [getOpp_fill_at_price] at h3
                exact hids i h3
              · have h4 := (fill_at_price_sublist a p _ st).subset h3
                exact hids i (mem_getD_findQ p i _ h4)
            · intro pq hpq hne
              rw [getOpp_setOpp] at hpq
              have hndk : ((getOpp b
                  (fill_at_price st a ((findQ (getOpp b st) p).getD []) p).1).map
                    Prod.fst).Nodup := by
                rw [getOpp_fill_at_price]
                exact hnd
              rcases mem_setQ_elim p _ _ hndk pq hpq with h3 | h3
              · exfalso
                apply hne
                rw [h3]
                dsimp only
                rw [hq2]
                rfl
              · rw [getOpp_fill_at_price] at h3
                rcases List.mem_cons.mp (hcov pq h3.1 hne) with hc | hc
                · exact absurd hc h3.2
                · exact hc
          · exfalso
            have hagg : (getOrder
                (setOpp b (fill_at_price st a ((findQ (getOpp b st) p).getD []) p).1
                  (setQ (getOpp b
                      (fill_at_price st a ((findQ (getOpp b st) p).getD []) p).1) p
                    (fill_at_price st a ((findQ (getOpp b st) p).getD []) p).2.2))
                a).remaining ≤ 0 := by
              rw [getOrder_setOpp]
              by_contra hcon
              push_neg at hcon
              exact hq2 (fill_at_price_zero a p _ st hq hcon)
            rw [match_trace_break b a rest _ hagg] at hm
            exact absurd hm (List.not_mem_nil pt)

theorem match_trace_time (b : Bool) (a : Nat) :
    ∀ (ps : List ℚ) (st : OrderBook),
      ((getOpp b st).map Prod.fst).Nodup →
      (∀ pq ∈ getOpp b st, pq.2.Nodup) →
      (∀ i ∈ sideIds (getOpp b st), i ≠ a) →
      ∀ pt ∈ match_trace b a st ps, ∀ pq ∈ getOpp b pt.1, pq.1 = pt.2.price →
        restId a pt.2 ∈ pq.2 ∧
        ∀ rr ∈ pq.2.takeWhile (fun x => decide (x ≠ restId a pt.2)),
          (getOrder pt.1 rr).remaining = 0 := by
  intro ps
  induction ps with
  | nil => intro st _ _ _ pt h; exact absurd h (by simp [match_trace_nil])
  | cons p rest ih =>
    intro st hnd hqnd hids pt h
    by_cases h1 : (getOrder st a).remaining ≤ 0
    · rw [match_trace_cons_break1 b a st p rest h1] at h
      exact absurd h (List.not_mem_nil pt)
    · by_cases h2 : (getOrder st a).order_type ≠ OrderType.MARKET ∧
        priceGate b p (getOrder st a).price
      · rw [match_trace_cons_break2 b a st p rest h1 h2] at h
        exact absurd h (List.not_mem_nil pt)
      · rw [match_trace_cons_step b a st p rest h1 h2] at h
        have hq : ∀ r ∈ (findQ (getOpp b st) p).getD [], r ≠ a :=
          fun r hr => hids r (mem_getD_findQ p r _ hr)
        rcases List.mem_append.mp h with hf | hm
        · have hpre := fill_trace_pre_sides a p _ st pt hf
          have hprice := fill_trace_price a p _ st pt hf
          have hopp : getOpp b pt.1 = getOpp b st := by
            cases b <;> simp [getOpp, hpre.1, hpre.2]
          intro pq hpq hpqp
          rw [hopp] at hpq
          rw [hprice] at hpqp
          have hfind : findQ (getOpp b st) pq.1 = some pq.2 :=
            findQ_of_mem_nodup _ hnd pq hpq
          rw [hpqp] at hfind
          have hqeq : (findQ (getOpp b st) p).getD [] = pq.2 := by
            rw [hfind]
            rfl
          rw [hqeq] at hq hf
          exact fill_trace_time a p pq.2 st hq (hqnd pq hpq) pt hf
        · by_cases hq2 : (fill_at_price st a ((findQ (getOpp b st) p).getD []) p).2.2 = []
          · refine ih _ ?_ ?_ ?_ pt hm
            · rw [getOpp_setOpp]
              apply keys_setQ_nodup
              rw [getOpp_fill_at_price]
              exact hnd
            · intro pq hpq
              rw [getOpp_setOpp] at hpq
              have hndk : ((getOpp b
                  (fill_at_price st a ((findQ (getOpp b st) p).getD []) p).1).map
                    Prod.fst).Nodup := by
                rw [getOpp_fill_at_price]
                exact hnd
              rcases mem_setQ_elim p _ _ hndk pq hpq with h3 | h3
              · rw [h3]
                dsimp only
                rw [hq2]
                exact List.nodup_nil
              · rw [getOpp_fill_at_price] at h3
                exact hqnd pq h3.1
            · intro i hi
              rw [getOpp_setOpp] at hi
              rcases mem_sideIds_setQ p _ i _ hi with h3 | h3
              · rw [getOpp_fill_at_price] at h3
                exact hids i h3
              · have h4 := (fill_at_price_sublist a p _ st).subset h3
                exact hids i (mem_getD_findQ p i _ h4)
          · exfalso
            have hagg : (getOrder
                (setOpp b (fill_at_price st a ((findQ (getOpp b st) p).getD []) p).1
                  (setQ (getOpp b
                      (fill_at_price st a ((findQ (getOpp b st) p).getD []) p).1) p
                    (fill_at_price st a ((findQ (getOpp b st) p).getD []) p).2.2))
                a).remaining ≤ 0 := by
              rw [getOrder_setOpp]
              by_contra hcon
              push_neg at hcon
              exact hq2 (fill_at_price_zero a p _ st hq hcon)
            rw [match_trace_break b a rest _ hagg] at hm
            exact absurd hm (List.not_mem_nil pt)

/-! ## Claim C1: submit-level assembly -/

instance : IsTotal ℚ (fun a b => b ≤ a) :=
  ⟨fun a b => le_total b a⟩

instance : IsTrans ℚ (fun a b => b ≤ a) :=
  ⟨fun _ _ _ h1 h2 => le_trans h2 h1⟩

theorem active_prices_nodup (m : SideMap) (h : (m.map Prod.fst).Nodup) :
    (active_prices m).Nodup := by
  unfold active_prices
  exact List.Nodup.sublist (List.Sublist.map Prod.fst (List.filter_sublist m)) h

theorem mem_active_prices (m : SideMap) (pq : ℚ × List Nat) (h : pq ∈ m)
    (hne : ¬ pq.2.isEmpty = true) : pq.1 ∈ active_prices m := by
  unfold active_prices
  exact List.mem_map.mpr ⟨pq, List.mem_filter.mpr ⟨h, by simpa using hne⟩, rfl⟩

theorem pairwise_priceBefore_asc (l : List ℚ)
    (hs : List.Pairwise (fun a b : ℚ => a ≤ b) l) (hn : l.Nodup) :
    List.Pairwise (priceBefore true) l := by
  have hn2 : List.Pairwise (fun a b : ℚ => a ≠ b) l := hn
  exact (hs.and hn2).imp (fun h => lt_of_le_of_ne h.1 h.2)

theorem pairwise_priceBefore_desc (l : List ℚ)
    (hs : List.Pairwise (fun a b : ℚ => b ≤ a) l) (hn : l.Nodup) :
    List.Pairwise (priceBefore false) l := by
  have hn2 : List.Pairwise (fun a b : ℚ => a ≠ b) l := hn
  exact (hs.and hn2).imp (fun h => lt_of_le_of_ne h.1 (Ne.symm h.2))

theorem submit_trace_eq (st : OrderBook) (side : Side) (price : ℚ) (quantity : Int)
    (order_type : OrderType) (timestamp : ℚ)
    (hv : ¬ validate_order_params price quantity order_type) :
    submit_trace st side price quantity order_type timestamp =
      if side = Side.BUY then
        match_trace true st.next_order_id
          (registerState st side price quantity order_type timestamp)
          (List.insertionSort (fun a b => a ≤ b)
            (active_prices (registerState st side price quantity order_type timestamp).asks))
      else
        match_trace false st.next_order_id
          (registerState st side price quantity order_type timestamp)
          (List.insertionSort (fun a b => b ≤ a)
            (active_prices
              (registerState st side price quantity order_type timestamp).bids)) := by
  unfold submit_trace
  rw [if_neg hv]
  rfl

/-- C1: price-time priority of matching.  For every accepted submit on
a well-formed book, the returned trades are exactly the trades of the
instrumented trace (each paired with the book state immediately before
it), and for every trade of that trace: (price priority) no resting
order on the opposing side at a strictly better price than the trade's
price — a lower ask for a BUY, a higher bid for a SELL — had
`remaining > 0` immediately before that trade; and (time priority) the
trade's resting counterparty is still queued at the trade's price
level, and every order ahead of it in that FIFO queue — i.e. every
earlier-arrived resting order at the level — already has
`remaining = 0` immediately before the trade. -/
theorem submit_price_time_priority (st : OrderBook) (side : Side) (price : ℚ)
    (quantity : Int) (order_type : OrderType) (timestamp : ℚ) (o : Order)
    (tr : List Trade) (hwf : WFbook st)
    (hok : (submit_order st side price quantity order_type timestamp).2 =
      Except.ok (o, tr)) :
    tr = (submit_trace st side price quantity order_type timestamp).map Prod.snd ∧
    ∀ pt ∈ submit_trace st side price quantity order_type timestamp,
      (∀ pq ∈ oppSide pt.1 side,
        (if side = Side.BUY then pq.1 < pt.2.price else pt.2.price < pq.1) →
        ∀ rr ∈ pq.2, ¬ 0 < (getOrder pt.1 rr).remaining) ∧
      (∀ pq ∈ oppSide pt.1 side, pq.1 = pt.2.price →
        restId st.next_order_id pt.2 ∈ pq.2 ∧
        ∀ rr ∈ pq.2.takeWhile (fun x => decide (x ≠ restId st.next_order_id pt.2)),
          (getOrder pt.1 rr).remaining = 0) := by
  obtain ⟨hbk, hak, hbq, haq, hbi, hai, hreg⟩ := hwf
  by_cases hv : validate_order_params price quantity order_type
  · exfalso
    simp only [submit_order, if_pos hv] at hok
    exact absurd hok (by simp)
  · constructor
    · -- the returned trades agree with the instrumented trace
      rw [submit_order_ok_eq st side price quantity order_type timestamp hv] at hok
      dsimp only at hok
      injection hok with hok1
      have htr : tr = (match_order
          (registerState st side price quantity order_type timestamp)
          st.next_order_id).2 := (congrArg Prod.snd hok1).symm
      rw [htr, submit_trace_eq st side price quantity order_type timestamp hv]
      by_cases hside : side = Side.BUY
      · rw [if_pos hside]
        have hs2 : (getOrder (registerState st side price quantity order_type timestamp)
            st.next_order_id).side = Side.BUY := by
          rw [getOrder_registerState]
          exact hside
        unfold match_order
        rw [if_pos hs2]
        unfold match_buy
        dsimp only
        exact match_go_trace_agree true st.next_order_id _ _
      · rw [if_neg hside]
        have hs2 : ¬ (getOrder (registerState st side price quantity order_type timestamp)
            st.next_order_id).side = Side.BUY := by
          rw [getOrder_registerState]
          exact hside
        unfold match_order
        rw [if_neg hs2]
        unfold match_sell
        dsimp only
        exact match_go_trace_agree false st.next_order_id _ _
    · -- per-trade price and time priority at the trade's pre-state
      intro pt hpt
      rw [submit_trace_eq st side price quantity order_type timestamp hv] at hpt
      by_cases hside : side = Side.BUY
      · rw [if_pos hside] at hpt
        have hnd1 : ((getOpp true
            (registerState st side price quantity order_type timestamp)).map
              Prod.fst).Nodup := hak
        have hqnd1 : ∀ pq ∈ getOpp true
            (registerState st side price quantity order_type timestamp),
            pq.2.Nodup := haq
        have hids1 : ∀ i ∈ sideIds (getOpp true
            (registerState st side price quantity order_type timestamp)),
            i ≠ st.next_order_id := fun i hi => Nat.ne_of_lt (hai i hi)
        have hsort1 : List.Pairwise (priceBefore true)
            (List.insertionSort (fun a b : ℚ => a ≤ b)
              (active_prices
                (registerState st side price quantity order_type timestamp).asks)) := by
          apply pairwise_priceBefore_asc
          · exact List.sorted_insertionSort _ _
          · exact (List.perm_insertionSort _ _).nodup_iff.mpr (active_prices_nodup _ hak)
        have hcov1 : ∀ pq ∈ getOpp true
            (registerState st side price quantity order_type timestamp),
            ¬ pq.2.isEmpty = true → pq.1 ∈
              List.insertionSort (fun a b : ℚ => a ≤ b)
                (active_prices
                  (registerState st side price quantity order_type timestamp).asks) :=
          fun pq hpq hne =>
            (List.perm_insertionSort _ _).mem_iff.mpr (mem_active_prices _ pq hpq hne)
        have hP := match_trace_priority true st.next_order_id _ _
          hsort1 hnd1 hids1 hcov1 pt hpt
        have hT := match_trace_time true st.next_order_id _ _
          hnd1 hqnd1 hids1 pt hpt
        have hoe : oppSide pt.1 side = getOpp true pt.1 := by
          rw [hside]
          rfl
        constructor
        · intro pq hpq hlt rr hrr
          rw [if_pos hside] at hlt
          exact hP pq (hoe ▸ hpq) hlt rr hrr
        · intro pq hpq hpe
          exact hT pq (hoe ▸ hpq) hpe
      · rw [if_neg hside] at hpt
        have hnd1 : ((getOpp false
            (registerState st side price quantity order_type timestamp)).map
              Prod.fst).Nodup := hbk
        have hqnd1 : ∀ pq ∈ getOpp false
            (registerState st side price quantity order_type timestamp),
            pq.2.Nodup := hbq
        have hids1 : ∀ i ∈ sideIds (getOpp false
            (registerState st side price quantity order_type timestamp)),
            i ≠ st.next_order_id := fun i hi => Nat.ne_of_lt (hbi i hi)
        have hsort1 : List.Pairwise (priceBefore false)
            (List.insertionSort (fun a b : ℚ => b ≤ a)
              (active_prices
                (registerState st side price quantity order_type timestamp).bids)) := by
          apply pairwise_priceBefore_desc
          · exact List.sorted_insertionSort _ _
          · exact (List.perm_insertionSort _ _).nodup_iff.mpr (active_prices_nodup _ hbk)
        have hcov1 : ∀ pq ∈ getOpp false
            (registerState st side price quantity order_type timestamp),
            ¬ pq.2.isEmpty = true → pq.1 ∈
              List.insertionSort (fun a b : ℚ => b ≤ a)
                (active_prices
                  (registerState st side price quantity order_type timestamp).bids) :=
          fun pq hpq hne =>
            (List.perm_insertionSort _ _).mem_iff.mpr (mem_active_prices _ pq hpq hne)
        have hP := match_trace_priority false st.next_order_id _ _
          hsort1 hnd1 hids1 hcov1 pt hpt
        have hT := match_trace_time false st.next_order_id _ _
          hnd1 hqnd1 hids1 pt hpt
        have hoe : oppSide pt.1 side = getOpp false pt.1 := by
          simp [oppSide, getOpp, hside]
        constructor
        · intro pq hpq hlt rr hrr
          rw [if_neg hside] at hlt
          exact hP pq (hoe ▸ hpq) hlt rr hrr
        · intro pq hpq hpe
          exact hT pq (hoe ▸ hpq) hpe

/-- A resting SELL for 7 units at 100 (id 1), the counterparty of the
`submit_price_time_priority` witness. -/
abbrev c1Rest : Order :=
  { order_id := 1, side := Side.SELL, price := 100, quantity := 7, remaining := 7,
    order_type := OrderType.LIMIT, timestamp := 1, status := OrderStatus.OPEN }

/-- A book with a single resting ask level, the input book of the
`submit_price_time_priority` witness. -/
abbrev c1Book : OrderBook :=
  { symbol := "SIM", tick_size := 1, bids := [], asks := [(100, [1])],
    orders := [(1, c1Rest)], trades := [], next_order_id := 2, next_trade_id := 1 }

/-- The filled aggressor returned by the witness submit. -/
abbrev c1AggResult : Order :=
  { order_id := 2, side := Side.BUY, price := 100, quantity := 5, remaining := 0,
    order_type := OrderType.LIMIT, timestamp := 2, status := OrderStatus.FILLED }

/-- The trade list returned by the witness submit. -/
abbrev c1Trades : List Trade :=
  [{ trade_id := 1, buy_order_id := 2, sell_order_id := 1, price := 100,
     quantity := 5, timestamp := 2 }]

/-- Witness for `submit_price_time_priority`: a BUY for 5 at 100
crossing a book with one resting ask of 7 at 100 trades once, with
price and time priority at the trade's pre-state. -/
theorem submit_price_time_priority_witness :
    WFbook c1Book ∧
    (submit_order c1Book Side.BUY 100 5 OrderType.LIMIT 2).2 =
      Except.ok (c1AggResult, c1Trades) ∧
    (c1Trades = (submit_trace c1Book Side.BUY 100 5 OrderType.LIMIT 2).map Prod.snd ∧
     ∀ pt ∈ submit_trace c1Book Side.BUY 100 5 OrderType.LIMIT 2,
       (∀ pq ∈ oppSide pt.1 Side.BUY,
         (if Side.BUY = Side.BUY then pq.1 < pt.2.price else pt.2.price < pq.1) →
         ∀ rr ∈ pq.2, ¬ 0 < (getOrder pt.1 rr).remaining) ∧
       (∀ pq ∈ oppSide pt.1 Side.BUY, pq.1 = pt.2.price →
         restId c1Book.next_order_id pt.2 ∈ pq.2 ∧
         ∀ rr ∈ pq.2.takeWhile (fun x => decide (x ≠ restId c1Book.next_order_id pt.2)),
           (getOrder pt.1 rr).remaining = 0)) :=
  ⟨by decide, rfl,
    submit_price_time_priority c1Book Side.BUY 100 5 OrderType.LIMIT 2
      c1AggResult c1Trades (by decide) rfl⟩

/-! ## Claim C3: conservation of quantity through the commands -/

theorem update_order_status_quantity (o : Order) :
    (update_order_status o).quantity = o.quantity := by
  unfold update_order_status
  split_ifs <;> rfl

theorem keys_setOrder (k : Nat) (v : Order) :
    ∀ (l : List (Nat × Order)), (setOrder l k v).map Prod.fst =
      (if k ∈ l.map Prod.fst then l.map Prod.fst else l.map Prod.fst ++ [k]) := by
  intro l
  induction l with
  | nil => simp [setOrder]
  | cons kv rest ih =>
    by_cases hk : kv.1 = k
    · simp only [setOrder, if_pos hk, List.map_cons]
      rw [if_pos (List.mem_cons.mpr (Or.inl hk.symm))]
      rw [hk]
    · simp only [setOrder, if_neg hk, List.map_cons, ih]
      by_cases hm : k ∈ rest.map Prod.fst
      · rw [if_pos hm, if_pos (List.mem_cons.mpr (Or.inr hm))]
      · rw [if_neg hm, if_neg (fun hc => by
          rcases List.mem_cons.mp hc with h1 | h1
          · exact hk h1.symm
          · exact hm h1)]
        simp

theorem keys_setOrder_mem (k : Nat) (v : Order) (l : List (Nat × Order))
    (h : k ∈ l.map Prod.fst) : (setOrder l k v).map Prod.fst = l.map Prod.fst := by
  rw [keys_setOrder, if_pos h]

theorem keys_setOrder_nodup (k : Nat) (v : Order) (l : List (Nat × Order))
    (h : (l.map Prod.fst).Nodup) : ((setOrder l k v).map Prod.fst).Nodup := by
  rw [keys_setOrder]
  by_cases hm : k ∈ l.map Prod.fst
  · rw [if_pos hm]
    exact h
  · rw [if_neg hm]
    exact List.Nodup.append h (List.nodup_singleton k)
      (fun x hx hx2 => hm ((List.mem_singleton.mp hx2) ▸ hx))

theorem mem_setOrder_elim (k : Nat) (v : Order) :
    ∀ (l : List (Nat × Order)), (l.map Prod.fst).Nodup →
      ∀ kv ∈ setOrder l k v, kv = (k, v) ∨ (kv ∈ l ∧ ¬ kv.1 = k) := by
  intro l
  induction l with
  | nil =>
    intro _ kv h
    simp only [setOrder] at h
    left
    simpa using h
  | cons hd tl ih =>
    intro hnd kv h
    rw [List.map_cons, List.nodup_cons] at hnd
    by_cases hk : hd.1 = k
    · simp only [setOrder, if_pos hk] at h
      rcases List.mem_cons.mp h with h1 | h1
      · left
        exact h1
      · right
        refine ⟨List.mem_cons_of_mem hd h1, ?_⟩
        intro hc
        apply hnd.1
        rw [hk, ← hc]
        exact List.mem_map.mpr ⟨kv, h1, rfl⟩
    · simp only [setOrder, if_neg hk] at h
      rcases List.mem_cons.mp h with h1 | h1
      · right
        refine ⟨?_, ?_⟩
        · rw [h1]
          exact List.mem_cons_self hd tl
        · rw [h1]
          exact hk
      · rcases ih hnd.2 kv h1 with h2 | h2
        · left
          exact h2
        · right
          exact ⟨List.mem_cons_of_mem hd h2.1, h2.2⟩

theorem findOrder_mem : ∀ (l : List (Nat × Order)) (k : Nat) (v : Order),
    findOrder l k = some v → (k, v) ∈ l := by
  intro l
  induction l with
  | nil => intro k v h; simp [findOrder] at h
  | cons kv rest ih =>
    intro k v h
    by_cases hk : kv.1 = k
    · simp only [findOrder, if_pos hk] at h
      injection h with h
      exact List.mem_cons.mpr (Or.inl (by rw [← hk, ← h]))
    · simp only [findOrder, if_neg hk] at h
      exact List.mem_cons_of_mem kv (ih k v h)

theorem findOrder_isSome_of_mem : ∀ (l : List (Nat × Order)) (k : Nat),
    k ∈ l.map Prod.fst → ∃ v, findOrder l k = some v := by
  intro l
  induction l with
  | nil => intro k h; simp at h
  | cons kv rest ih =>
    intro k h
    rw [List.map_cons] at h
    by_cases hk : kv.1 = k
    · exact ⟨kv.2, by simp [findOrder, hk]⟩
    · rcases List.mem_cons.mp h with h1 | h1
      · exact absurd h1.symm hk
      · obtain ⟨v, hv⟩ := ih k h1
        exact ⟨v, by simp [findOrder, hk, hv]⟩

theorem getOrder_mem (st : OrderBook) (k : Nat) (h : k ∈ regKeys st) :
    (k, getOrder st k) ∈ st.orders := by
  obtain ⟨v, hv⟩ := findOrder_isSome_of_mem st.orders k h
  unfold getOrder
  rw [hv]
  exact findOrder_mem st.orders k v hv

theorem setOrder_absent (k : Nat) (v : Order) :
    ∀ (l : List (Nat × Order)), k ∉ l.map Prod.fst →
      setOrder l k v = l ++ [(k, v)] := by
  intro l
  induction l with
  | nil => intro _; rfl
  | cons kv rest ih =>
    intro h
    rw [List.map_cons] at h
    have h1 : ¬ kv.1 = k := fun hc => h (List.mem_cons.mpr (Or.inl hc.symm))
    simp only [setOrder, if_neg h1]
    rw [ih (fun hc => h (List.mem_cons.mpr (Or.inr hc)))]
    rfl

theorem tradeQty_append (ts : List Trade) (t : Trade) (k : Nat) :
    tradeQty (ts ++ [t]) k =
      tradeQty ts k +
        (if t.buy_order_id = k ∨ t.sell_order_id = k then t.quantity else 0) := by
  unfold tradeQty
  rw [List.filter_append, List.map_append, List.sum_append]
  by_cases h : t.buy_order_id = k ∨ t.sell_order_id = k
  · rw [if_pos h]
    have hf : List.filter
        (fun t' => decide (t'.buy_order_id = k ∨ t'.sell_order_id = k)) [t] = [t] := by
      simp [h]
    rw [hf]
    simp
  · rw [if_neg h]
    have hf : List.filter
        (fun t' => decide (t'.buy_order_id = k ∨ t'.sell_order_id = k)) [t] = [] := by
      simp [h]
    rw [hf]
    simp

theorem tradeQty_zero (ts : List Trade) (k : Nat)
    (h : ∀ t ∈ ts, ¬ (t.buy_order_id = k ∨ t.sell_order_id = k)) :
    tradeQty ts k = 0 := by
  unfold tradeQty
  rw [List.filter_eq_nil_iff.mpr (fun t ht => by simpa using h t ht)]
  rfl

theorem execute_trade_orders (st : OrderBook) (a r : Nat) (p : ℚ) (f : Int) :
    (execute_trade st a r p f).1.orders =
      setOrder (setOrder st.orders a
          (update_order_status
            { getOrder st a with remaining := (getOrder st a).remaining - f }))
        r (update_order_status
            { getOrder st r with remaining := (getOrder st r).remaining - f }) := rfl

theorem execute_trade_qty (st : OrderBook) (a r : Nat) (p : ℚ) (f : Int) :
    (execute_trade st a r p f).2.quantity = f := rfl

theorem execute_trade_ids (st : OrderBook) (a r : Nat) (p : ℚ) (f : Int) :
    ((execute_trade st a r p f).2.buy_order_id = a ∧
      (execute_trade st a r p f).2.sell_order_id = r) ∨
    ((execute_trade st a r p f).2.buy_order_id = r ∧
      (execute_trade st a r p f).2.sell_order_id = a) := by
  unfold execute_trade
  dsimp only
  by_cases hs : (getOrder st a).side = Side.BUY
  · left
    rw [if_pos hs, if_pos hs]
    exact ⟨rfl, rfl⟩
  · right
    rw [if_neg hs, if_neg hs]
    exact ⟨rfl, rfl⟩

theorem execute_trade_regKeys (st : OrderBook) (a r : Nat) (p : ℚ) (f : Int)
    (ha : a ∈ regKeys st) (hr : r ∈ regKeys st) :
    regKeys (execute_trade st a r p f).1 = regKeys st := by
  have h1 := keys_setOrder_mem a
    (update_order_status
      { getOrder st a with remaining := (getOrder st a).remaining - f }) st.orders ha
  have h2 : r ∈ (setOrder st.orders a
      (update_order_status
        { getOrder st a with remaining := (getOrder st a).remaining - f })).map
          Prod.fst := by
    rw [h1]
    exact hr
  unfold regKeys
  rw [execute_trade_orders, keys_setOrder_mem _ _ _ h2, h1]

theorem execute_trade_conserv (st : OrderBook) (a r : Nat) (p : ℚ) (f : Int)
    (hne : r ≠ a) (ha : a ∈ regKeys st) (hr : r ∈ regKeys st)
    (hnd : (regKeys st).Nodup) (hc : Conserv st) :
    Conserv (execute_trade st a r p f).1 := by
  intro kv hkv
  rw [execute_trade_orders] at hkv
  rw [execute_trade_trades, tradeQty_append]
  have hkeys1 : ((setOrder st.orders a
      (update_order_status
        { getOrder st a with remaining := (getOrder st a).remaining - f })).map
          Prod.fst).Nodup := keys_setOrder_nodup _ _ _ hnd
  rcases mem_setOrder_elim _ _ _ hkeys1 kv hkv with h1 | h1
  · -- the resting order's entry was just updated
    rw [h1]
    dsimp only
    rw [update_order_status_quantity, update_order_status_remaining]
    dsimp only
    have hcond : (execute_trade st a r p f).2.buy_order_id = r ∨
        (execute_trade st a r p f).2.sell_order_id = r := by
      rcases execute_trade_ids st a r p f with ⟨h2, h3⟩ | ⟨h2, h3⟩
      · right
        exact h3
      · left
        exact h2
    rw [if_pos hcond, execute_trade_qty]
    have hold := hc (r, getOrder st r) (getOrder_mem st r hr)
    dsimp only at hold
    omega
  · rcases mem_setOrder_elim _ _ _ hnd kv h1.1 with h2 | h2
    · -- the aggressor's entry was just updated
      rw [h2] at h1 ⊢
      dsimp only at h1 ⊢
      rw [update_order_status_quantity, update_order_status_remaining]
      dsimp only
      have hcond : (execute_trade st a r p f).2.buy_order_id = a ∨
          (execute_trade st a r p f).2.sell_order_id = a := by
        rcases execute_trade_ids st a r p f with ⟨h3, h4⟩ | ⟨h3, h4⟩
        · left
          exact h3
        · right
          exact h4
      rw [if_pos hcond, execute_trade_qty]
      have hold := hc (a, getOrder st a) (getOrder_mem st a ha)
      dsimp only at hold
      omega
    · -- untouched entry: the new trade does not involve it
      have hcond : ¬ ((execute_trade st a r p f).2.buy_order_id = kv.1 ∨
          (execute_trade st a r p f).2.sell_order_id = kv.1) := by
        rcases execute_trade_ids st a r p f with ⟨h3, h4⟩ | ⟨h3, h4⟩
        · rw [h3, h4]
          push_neg
          exact ⟨fun hc2 => h2.2 hc2.symm, fun hc2 => h1.2 hc2.symm⟩
        · rw [h3, h4]
          push_neg
          exact ⟨fun hc2 => h1.2 hc2.symm, fun hc2 => h2.2 hc2.symm⟩
      rw [if_neg hcond]
      have hold := hc kv h2.1
      omega

theorem fill_at_price_conserv (a : Nat) (p : ℚ) :
    ∀ (q : List Nat) (st : OrderBook),
      (∀ x ∈ q, x ≠ a) → (∀ x ∈ q, x ∈ regKeys st) → a ∈ regKeys st →
      (regKeys st).Nodup → Conserv st →
      regKeys (fill_at_price st a q p).1 = regKeys st ∧
      Conserv (fill_at_price st a q p).1 ∧
      ∀ t ∈ (fill_at_price st a q p).2.1,
        t.buy_order_id ∈ regKeys st ∧ t.sell_order_id ∈ regKeys st := by
  intro q
  induction q with
  | nil =>
    intro st _ _ _ _ hc
    exact ⟨rfl, hc, fun t ht => absurd ht (List.not_mem_nil t)⟩
  | cons r rest ih =>
    intro st hqa hqk hak hnd hc
    by_cases hb : (getOrder st a).remaining ≤ 0
    · rw [fill_at_price_cons_break st a r rest p hb]
      exact ⟨rfl, hc, fun t ht => absurd ht (List.not_mem_nil t)⟩
    · have hra : r ≠ a := hqa r (List.mem_cons_self r rest)
      have hrk : r ∈ regKeys st := hqk r (List.mem_cons_self r rest)
      have hkeys := execute_trade_regKeys st a r p
        (min (getOrder st a).remaining (getOrder st r).remaining) hak hrk
      have hcons := execute_trade_conserv st a r p
        (min (getOrder st a).remaining (getOrder st r).remaining) hra hak hrk hnd hc
      have hih := ih (execute_trade st a r p
          (min (getOrder st a).remaining (getOrder st r).remaining)).1
        (fun x hx => hqa x (List.mem_cons_of_mem r hx))
        (fun x hx => by
          rw [hkeys]
          exact hqk x (List.mem_cons_of_mem r hx))
        (by
          rw [hkeys]
          exact hak)
        (by
          rw [hkeys]
          exact hnd)
        hcons
      refine ⟨?_, ?_, ?_⟩
      · rw [fill_at_price_cons_state st a r rest p hb, hih.1, hkeys]
      · rw [fill_at_price_cons_state st a r rest p hb]
        exact hih.2.1
      · intro t ht
        rw [fill_at_price_cons_trades st a r rest p hb] at ht
        rcases List.mem_cons.mp ht with h1 | h1
        · rw [h1]
          rcases execute_trade_ids st a r p
            (min (getOrder st a).remaining (getOrder st r).remaining) with
              ⟨h2, h3⟩ | ⟨h2, h3⟩
          · rw [h2, h3]
            exact ⟨hak, hrk⟩
          · rw [h2, h3]
            exact ⟨hrk, hak⟩
        · have h2 := hih.2.2 t h1
          rw [hkeys] at h2
          exact h2

theorem match_go_conserv (b : Bool) (a : Nat) :
    ∀ (ps : List ℚ) (st : OrderBook),
      (∀ i ∈ sideIds (getOpp b st), i ≠ a) →
      (∀ i ∈ sideIds (getOpp b st), i ∈ regKeys st) →
      a ∈ regKeys st → (regKeys st).Nodup → Conserv st →
      regKeys (match_go b a st ps).1 = regKeys st ∧
      Conserv (match_go b a st ps).1 ∧
      ∀ t ∈ (match_go b a st ps).2,
        t.buy_order_id ∈ regKeys st ∧ t.sell_order_id ∈ regKeys st := by
  intro ps
  induction ps with
  | nil =>
    intro st _ _ _ _ hc
    exact ⟨rfl, hc, fun t ht => absurd ht (List.not_mem_nil t)⟩
  | cons p rest ih =>
    intro st hsa hsk hak hnd hc
    by_cases h1 : (getOrder st a).remaining ≤ 0
    · rw [match_go_cons_break1 b a st p rest h1]
      exact ⟨rfl, hc, fun t ht => absurd ht (List.not_mem_nil t)⟩
    · by_cases h2 : (getOrder st a).order_type ≠ OrderType.MARKET ∧
        priceGate b p (getOrder st a).price
      · rw [match_go_cons_break2 b a st p rest h1 h2]
        exact ⟨rfl, hc, fun t ht => absurd ht (List.not_mem_nil t)⟩
      · rw [match_go_cons_step b a st p rest h1 h2]
        dsimp only
        have hq1 : ∀ x ∈ (findQ (getOpp b st) p).getD [], x ≠ a :=
          fun x hx => hsa x (mem_getD_findQ p x _ hx)
        have hq2 : ∀ x ∈ (findQ (getOpp b st) p).getD [], x ∈ regKeys st :=
          fun x hx => hsk x (mem_getD_findQ p x _ hx)
        have hfill := fill_at_price_conserv a p _ st hq1 hq2 hak hnd hc
        have hkeys2 : regKeys
            (setOpp b (fill_at_price st a ((findQ (getOpp b st) p).getD []) p).1
              (setQ (getOpp b (fill_at_price st a ((findQ (getOpp b st) p).getD []) p).1) p
                (fill_at_price st a ((findQ (getOpp b st) p).getD []) p).2.2)) =
            regKeys st := by
          unfold regKeys
          rw [setOpp_orders]
          exact hfill.1
        have hcons2 : Conserv
            (setOpp b (fill_at_price st a ((findQ (getOpp b st) p).getD []) p).1
              (setQ (getOpp b (fill_at_price st a ((findQ (getOpp b st) p).getD []) p).1) p
                (fill_at_price st a ((findQ (getOpp b st) p).getD []) p).2.2)) := by
          intro kv hkv
          rw [setOpp_orders] at hkv
          rw [setOpp_trades]
          exact hfill.2.1 kv hkv
        have hside2 : ∀ i ∈ sideIds (getOpp b
            (setOpp b (fill_at_price st a ((findQ (getOpp b st) p).getD []) p).1
              (setQ (getOpp b (fill_at_price st a ((findQ (getOpp b st) p).getD []) p).1) p
                (fill_at_price st a ((findQ (getOpp b st) p).getD []) p).2.2))), i ≠ a := by
          intro i hi
          rw [getOpp_setOpp] at hi
          rcases mem_sideIds_setQ p _ i _ hi with h3 | h3
          · rw [getOpp_fill_at_price] at h3
            exact hsa i h3
          · exact hq1 i ((fill_at_price_sublist a p _ st).subset h3)
        have hsidek2 : ∀ i ∈ sideIds (getOpp b
            (setOpp b (fill_at_price st a ((findQ (getOpp b st) p).getD []) p).1
              (setQ (getOpp b (fill_at_price st a ((findQ (getOpp b st) p).getD []) p).1) p
                (fill_at_price st a ((findQ (getOpp b st) p).getD []) p).2.2))),
            i ∈ regKeys
              (setOpp b (fill_at_price st a ((findQ (getOpp b st) p).getD []) p).1
                (setQ (getOpp b
                    (fill_at_price st a ((findQ (getOpp b st) p).getD []) p).1) p
                  (fill_at_price st a ((findQ (getOpp b st) p).getD []) p).2.2)) := by
          intro i hi
          rw [hkeys2]
          rw [getOpp_setOpp] at hi
          rcases mem_sideIds_setQ p _ i _ hi with h3 | h3
          · rw [getOpp_fill_at_price] at h3
            exact hsk i h3
          · exact hq2 i ((fill_at_price_sublist a p _ st).subset h3)
        have hih := ih _ hside2 hsidek2
          (by
            rw [hkeys2]
            exact hak)
          (by
            rw [hkeys2]
            exact hnd)
          hcons2
        refine ⟨?_, ?_, ?_⟩
        · rw [hih.1, hkeys2]
        · exact hih.2.1
        · intro t ht
          rcases List.mem_append.mp ht with h3 | h3
          · exact hfill.2.2 t h3
          · have h4 := hih.2.2 t h3
            rw [hkeys2] at h4
            exact h4

theorem match_order_conserv (st : OrderBook) (a : Nat)
    (hbne : ∀ i ∈ sideIds st.bids, i ≠ a) (hane : ∀ i ∈ sideIds st.asks, i ≠ a)
    (hbmem : ∀ i ∈ sideIds st.bids, i ∈ regKeys st)
    (hamem : ∀ i ∈ sideIds st.asks, i ∈ regKeys st)
    (haR : a ∈ regKeys st) (hnd : (regKeys st).Nodup) (hc : Conserv st) :
    regKeys (match_order st a).1 = regKeys st ∧
    Conserv (match_order st a).1 ∧
    (∀ t ∈ (match_order st a).2,
      t.buy_order_id ∈ regKeys st ∧ t.sell_order_id ∈ regKeys st) ∧
    (∀ i ∈ sideIds (match_order st a).1.bids, i ∈ sideIds st.bids) ∧
    (∀ i ∈ sideIds (match_order st a).1.asks, i ∈ sideIds st.asks) ∧
    (match_order st a).1.next_order_id = st.next_order_id := by
  unfold match_order
  by_cases hside : (getOrder st a).side = Side.BUY
  · rw [if_pos hside]
    unfold match_buy
    dsimp only
    have hgo := match_go_conserv true a
      (List.insertionSort (fun a b => a ≤ b) (active_prices st.asks)) st
      hane hamem haR hnd hc
    refine ⟨hgo.1, hgo.2.1, hgo.2.2, ?_, ?_, ?_⟩
    · intro i hi
      rw [match_go_bids_true] at hi
      exact hi
    · intro i hi
      by_contra hn
      exact not_mem_sideIds_match_go true a i _ st hn (mem_sideIds_cleanup _ _ hi)
    · exact match_go_next_order_id true a _ st
  · rw [if_neg hside]
    unfold match_sell
    dsimp only
    have hgo := match_go_conserv false a
      (List.insertionSort (fun a b => b ≤ a) (active_prices st.bids)) st
      hbne hbmem haR hnd hc
    refine ⟨hgo.1, hgo.2.1, hgo.2.2, ?_, ?_, ?_⟩
    · intro i hi
      by_contra hn
      exact not_mem_sideIds_match_go false a i _ st hn (mem_sideIds_cleanup _ _ hi)
    · intro i hi
      rw [match_go_asks_false] at hi
      exact hi
    · exact match_go_next_order_id false a _ st

theorem handle_post_match_conserv (st : OrderBook) (a : Nat) (ot : OrderType)
    (haR : a ∈ regKeys st) (hnd : (regKeys st).Nodup) (hc : Conserv st) :
    regKeys (handle_post_match st a ot) = regKeys st ∧
    Conserv (handle_post_match st a ot) ∧
    (∀ i ∈ sideIds (handle_post_match st a ot).bids,
      i ∈ sideIds st.bids ∨ i = (getOrder st a).order_id) ∧
    (∀ i ∈ sideIds (handle_post_match st a ot).asks,
      i ∈ sideIds st.asks ∨ i = (getOrder st a).order_id) ∧
    (handle_post_match st a ot).next_order_id = st.next_order_id := by
  unfold handle_post_match
  dsimp only
  split_ifs with h1 h2
  · exact ⟨rfl, hc, fun i hi => Or.inl hi, fun i hi => Or.inl hi, rfl⟩
  · refine ⟨?_, ?_, fun i hi => Or.inl hi, fun i hi => Or.inl hi, rfl⟩
    · exact keys_setOrder_mem a _ st.orders haR
    · intro kv hkv
      rcases mem_setOrder_elim _ _ _ hnd kv hkv with hh | hh
      · rw [hh]
        dsimp only
        have hold := hc (a, getOrder st a) (getOrder_mem st a haR)
        dsimp only at hold
        exact hold
      · exact hc kv hh.1
  · unfold add_to_book
    by_cases hsd : (getOrder st a).side = Side.BUY
    · rw [if_pos hsd]
      refine ⟨rfl, hc, ?_, fun i hi => Or.inl hi, rfl⟩
      intro i hi
      rcases mem_sideIds_setQ _ _ i _ hi with h3 | h3
      · exact Or.inl h3
      · rcases List.mem_append.mp h3 with h4 | h4
        · exact Or.inl (mem_getD_findQ _ i _ h4)
        · right
          simpa using h4
    · rw [if_neg hsd]
      refine ⟨rfl, hc, fun i hi => Or.inl hi, ?_, rfl⟩
      intro i hi
      rcases mem_sideIds_setQ _ _ i _ hi with h3 | h3
      · exact Or.inl h3
      · rcases List.mem_append.mp h3 with h4 | h4
        · exact Or.inl (mem_getD_findQ _ i _ h4)
        · right
          simpa using h4

theorem registerState_inv (st : OrderBook) (side : Side) (price : ℚ) (quantity : Int)
    (order_type : OrderType) (timestamp : ℚ) (h : InvC3 st) :
    InvC3 (registerState st side price quantity order_type timestamp) := by
  obtain ⟨hnd, hbound, hbids, hasks, htr, hc⟩ := h
  have hfresh : st.next_order_id ∉ regKeys st :=
    fun hmem => absurd (hbound _ (getOrder_mem st _ hmem)) (lt_irrefl _)
  have hset : (registerState st side price quantity order_type timestamp).orders =
      st.orders ++
        [(st.next_order_id, create_order st side price quantity order_type timestamp)] :=
    setOrder_absent _ _ _ hfresh
  refine ⟨?_, ?_, ?_, ?_, ?_, ?_⟩
  · unfold regKeys
    rw [hset, List.map_append]
    refine List.Nodup.append hnd (List.nodup_singleton _) ?_
    intro x hx hx2
    simp only [List.map_cons, List.map_nil, List.mem_singleton] at hx2
    exact hfresh (hx2 ▸ hx)
  · intro kv hkv
    rw [hset] at hkv
    show kv.1 < st.next_order_id + 1
    rcases List.mem_append.mp hkv with h1 | h1
    · exact Nat.lt_succ_of_lt (hbound kv h1)
    · simp only [List.mem_singleton] at h1
      rw [h1]
      exact Nat.lt_succ_self _
  · intro i hi
    have h1 := hbids i hi
    refine ⟨Nat.lt_succ_of_lt h1.1, ?_⟩
    unfold regKeys
    rw [hset, List.map_append]
    exact List.mem_append_left _ h1.2
  · intro i hi
    have h1 := hasks i hi
    refine ⟨Nat.lt_succ_of_lt h1.1, ?_⟩
    unfold regKeys
    rw [hset, List.map_append]
    exact List.mem_append_left _ h1.2
  · intro t ht
    have h1 := htr t ht
    exact ⟨Nat.lt_succ_of_lt h1.1, Nat.lt_succ_of_lt h1.2⟩
  · intro kv hkv
    rw [hset] at hkv
    rcases List.mem_append.mp hkv with h1 | h1
    · exact hc kv h1
    · simp only [List.mem_singleton] at h1
      rw [h1]
      dsimp only
      rw [show (registerState st side price quantity order_type timestamp).trades =
        st.trades from rfl]
      rw [tradeQty_zero st.trades st.next_order_id (fun t ht hcond => by
        rcases hcond with hcc | hcc
        · exact absurd (hcc ▸ (htr t ht).1) (lt_irrefl _)
        · exact absurd (hcc ▸ (htr t ht).2) (lt_irrefl _))]
      rw [show (create_order st side price quantity order_type timestamp).quantity =
          quantity from rfl,
        show (create_order st side price quantity order_type timestamp).remaining =
          quantity from rfl]
      omega

theorem init_inv (symbol : String) (tick_size : ℚ) (b : OrderBook)
    (h : OrderBook.init symbol tick_size = Except.ok b) : InvC3 b := by
  unfold OrderBook.init at h
  by_cases ht : tick_size ≤ 0
  · rw [if_pos ht] at h
    exact absurd h (by simp)
  · rw [if_neg ht] at h
    injection h with h
    rw [← h]
    exact ⟨List.nodup_nil, fun kv hkv => absurd hkv (List.not_mem_nil kv),
      fun i hi => absurd hi (List.not_mem_nil i),
      fun i hi => absurd hi (List.not_mem_nil i),
      fun t ht2 => absurd ht2 (List.not_mem_nil t),
      fun kv hkv => absurd hkv (List.not_mem_nil kv)⟩

theorem mem_sideIds_remove (price : ℚ) (oid : Nat) :
    ∀ (m : SideMap) (x : Nat),
      x ∈ sideIds (remove_from_book_side m price oid) → x ∈ sideIds m := by
  intro m
  induction m with
  | nil => intro x h; exact absurd h (List.not_mem_nil x)
  | cons pq rest ih =>
    intro x h
    unfold remove_from_book_side at h
    by_cases hp : pq.1 = price
    · rw [if_pos hp] at h
      dsimp only at h
      by_cases he : (pq.2.filter (fun y => decide (y ≠ oid))).isEmpty = true
      · rw [if_pos he] at h
        rw [sideIds_cons]
        exact List.mem_append_right _ h
      · rw [if_neg he] at h
        rw [sideIds_cons] at h ⊢
        rcases List.mem_append.mp h with h1 | h1
        · exact List.mem_append_left _ (List.mem_of_mem_filter h1)
        · exact List.mem_append_right _ h1
    · rw [if_neg hp] at h
      rw [sideIds_cons] at h ⊢
      rcases List.mem_append.mp h with h1 | h1
      · exact List.mem_append_left _ h1
      · exact List.mem_append_right _ (ih x h1)

theorem remove_from_book_bids_subset (st : OrderBook) (o : Order) :
    ∀ i ∈ sideIds (remove_from_book st o).bids, i ∈ sideIds st.bids := by
  intro i hi
  unfold remove_from_book at hi
  by_cases hs : o.side = Side.BUY
  · rw [if_pos hs] at hi
    dsimp only at hi
    exact mem_sideIds_remove _ _ _ i hi
  · rw [if_neg hs] at hi
    exact hi

theorem remove_from_book_asks_subset (st : OrderBook) (o : Order) :
    ∀ i ∈ sideIds (remove_from_book st o).asks, i ∈ sideIds st.asks := by
  intro i hi
  unfold remove_from_book at hi
  by_cases hs : o.side = Side.BUY
  · rw [if_pos hs] at hi
    exact hi
  · rw [if_neg hs] at hi
    dsimp only at hi
    exact mem_sideIds_remove _ _ _ i hi

theorem cancel_state_inv (st : OrderBook) (oid : Nat) (o : Order)
    (hf : findOrder st.orders oid = some o) (h : InvC3 st) :
    InvC3 { remove_from_book st o with
      orders := setOrder (remove_from_book st o).orders oid
        { o with status := OrderStatus.CANCELLED } } := by
  obtain ⟨hnd, hbound, hbids, hasks, htr, hc⟩ := h
  have hoidk : oid ∈ regKeys st :=
    List.mem_map.mpr ⟨(oid, o), findOrder_mem st.orders oid o hf, rfl⟩
  have hormv : (remove_from_book st o).orders = st.orders := remove_from_book_orders st o
  have hnid : ({ remove_from_book st o with
      orders := setOrder (remove_from_book st o).orders oid
        { o with status := OrderStatus.CANCELLED } } : OrderBook).next_order_id =
      st.next_order_id := by
    dsimp only
    exact remove_from_book_next_order_id st o
  have hkeys : regKeys ({ remove_from_book st o with
      orders := setOrder (remove_from_book st o).orders oid
        { o with status := OrderStatus.CANCELLED } } : OrderBook) = regKeys st := by
    unfold regKeys
    dsimp only
    rw [hormv, keys_setOrder_mem _ _ _ hoidk]
  have htrs : ({ remove_from_book st o with
      orders := setOrder (remove_from_book st o).orders oid
        { o with status := OrderStatus.CANCELLED } } : OrderBook).trades = st.trades := by
    dsimp only
    exact remove_from_book_trades st o
  refine ⟨?_, ?_, ?_, ?_, ?_, ?_⟩
  · rw [hkeys]
    exact hnd
  · intro kv hkv
    dsimp only at hkv
    rw [hormv] at hkv
    rw [hnid]
    rcases mem_setOrder_elim _ _ _ hnd kv hkv with h1 | h1
    · rw [h1]
      dsimp only
      exact hbound (oid, o) (findOrder_mem st.orders oid o hf)
    · exact hbound kv h1.1
  · intro i hi
    dsimp only at hi
    have h1 := hbids i (remove_from_book_bids_subset st o i hi)
    rw [hnid, hkeys]
    exact h1
  · intro i hi
    dsimp only at hi
    have h1 := hasks i (remove_from_book_asks_subset st o i hi)
    rw [hnid, hkeys]
    exact h1
  · intro t ht
    rw [htrs] at ht
    rw [hnid]
    exact htr t ht
  · intro kv hkv
    dsimp only at hkv
    rw [hormv] at hkv
    rw [htrs]
    rcases mem_setOrder_elim _ _ _ hnd kv hkv with h1 | h1
    · rw [h1]
      dsimp only
      exact hc (oid, o) (findOrder_mem st.orders oid o hf)
    · exact hc kv h1.1

theorem cancel_inv (st : OrderBook) (oid : Nat) (h : InvC3 st) :
    InvC3 (cancel_order st oid).1 := by
  unfold cancel_order
  cases hf : findOrder st.orders oid with
  | none => exact h
  | some o =>
    dsimp only
    by_cases hv : validate_cancellable o
    · rw [if_pos hv]
      exact h
    · rw [if_neg hv]
      dsimp only
      exact cancel_state_inv st oid o hf h

theorem submit_inv (st : OrderBook) (side : Side) (price : ℚ) (quantity : Int)
    (order_type : OrderType) (timestamp : ℚ) (h : InvC3 st) :
    InvC3 (submit_order st side price quantity order_type timestamp).1 := by
  by_cases hv : validate_order_params price quantity order_type
  · simp only [submit_order, if_pos hv]
    exact h
  · obtain ⟨hnd0, hbound0, hbids0, hasks0, htr0, hc0⟩ := h
    rw [submit_order_ok_eq st side price quantity order_type timestamp hv]
    dsimp only
    obtain ⟨hnd1, hbound1, hbids1, hasks1, htr1, hc1⟩ :=
      registerState_inv st side price quantity order_type timestamp
        ⟨hnd0, hbound0, hbids0, hasks0, htr0, hc0⟩
    have hfresh : st.next_order_id ∉ regKeys st :=
      fun hmem => absurd (hbound0 _ (getOrder_mem st _ hmem)) (lt_irrefl _)
    have hset : (registerState st side price quantity order_type timestamp).orders =
        st.orders ++ [(st.next_order_id,
          create_order st side price quantity order_type timestamp)] :=
      setOrder_absent _ _ _ hfresh
    have hreg1 : st.next_order_id ∈
        regKeys (registerState st side price quantity order_type timestamp) := by
      unfold regKeys
      rw [hset, List.map_append]
      exact List.mem_append_right _ (by simp)
    have hbne : ∀ i ∈ sideIds
        (registerState st side price quantity order_type timestamp).bids,
        i ≠ st.next_order_id := fun i hi => Nat.ne_of_lt ((hbids0 i hi).1)
    have hane : ∀ i ∈ sideIds
        (registerState st side price quantity order_type timestamp).asks,
        i ≠ st.next_order_id := fun i hi => Nat.ne_of_lt ((hasks0 i hi).1)
    have hbm : ∀ i ∈ sideIds
        (registerState st side price quantity order_type timestamp).bids,
        i ∈ regKeys (registerState st side price quantity order_type timestamp) :=
      fun i hi => (hbids1 i hi).2
    have ham : ∀ i ∈ sideIds
        (registerState st side price quantity order_type timestamp).asks,
        i ∈ regKeys (registerState st side price quantity order_type timestamp) :=
      fun i hi => (hasks1 i hi).2
    have hmo := match_order_conserv
      (registerState st side price quantity order_type timestamp) st.next_order_id
      hbne hane hbm ham hreg1 hnd1 hc1
    have hMreg : st.next_order_id ∈ regKeys
        (match_order (registerState st side price quantity order_type timestamp)
          st.next_order_id).1 := by
      rw [hmo.1]
      exact hreg1
    have hMnd : (regKeys
        (match_order (registerState st side price quantity order_type timestamp)
          st.next_order_id).1).Nodup := by
      rw [hmo.1]
      exact hnd1
    have hpm := handle_post_match_conserv
      (match_order (registerState st side price quantity order_type timestamp)
        st.next_order_id).1 st.next_order_id order_type hMreg hMnd hmo.2.1
    have hstat : staticPart (getOrder
        (match_order (registerState st side price quantity order_type timestamp)
          st.next_order_id).1 st.next_order_id) =
        staticPart (create_order st side price quantity order_type timestamp) := by
      rw [staticPart_match_order _ _ hane hbne, getOrder_registerState]
    have hids : (getOrder
        (match_order (registerState st side price quantity order_type timestamp)
          st.next_order_id).1 st.next_order_id).order_id = st.next_order_id :=
      congrArg (fun t => t.1) hstat
    have hkb : ∀ k ∈ regKeys
        (registerState st side price quantity order_type timestamp),
        k < (registerState st side price quantity order_type timestamp).next_order_id :=
      fun k hk => hbound1 _ (getOrder_mem _ k hk)
    refine ⟨?_, ?_, ?_, ?_, ?_, ?_⟩
    · rw [hpm.1, hmo.1]
      exact hnd1
    · intro kv hkv
      have hk1 : kv.1 ∈ regKeys (handle_post_match
          (match_order (registerState st side price quantity order_type timestamp)
            st.next_order_id).1 st.next_order_id order_type) :=
        List.mem_map.mpr ⟨kv, hkv, rfl⟩
      rw [hpm.1, hmo.1] at hk1
      have h2 := hkb kv.1 hk1
      rw [hpm.2.2.2.2, hmo.2.2.2.2.2]
      exact h2
    · intro i hi
      rcases hpm.2.2.1 i hi with h1 | h1
      · have h2 := hbids1 i (hmo.2.2.2.1 i h1)
        constructor
        · rw [hpm.2.2.2.2, hmo.2.2.2.2.2]
          exact h2.1
        · rw [hpm.1, hmo.1]
          exact h2.2
      · rw [h1, hids]
        constructor
        · rw [hpm.2.2.2.2, hmo.2.2.2.2.2]
          exact Nat.lt_succ_self _
        · rw [hpm.1, hmo.1]
          exact hreg1
    · intro i hi
      rcases hpm.2.2.2.1 i hi with h1 | h1
      · have h2 := hasks1 i (hmo.2.2.2.2.1 i h1)
        constructor
        · rw [hpm.2.2.2.2, hmo.2.2.2.2.2]
          exact h2.1
        · rw [hpm.1, hmo.1]
          exact h2.2
      · rw [h1, hids]
        constructor
        · rw [hpm.2.2.2.2, hmo.2.2.2.2.2]
          exact Nat.lt_succ_self _
        · rw [hpm.1, hmo.1]
          exact hreg1
    · intro t ht
      rw [handle_post_match_trades, match_order_trades] at ht
      rw [hpm.2.2.2.2, hmo.2.2.2.2.2]
      rcases List.mem_append.mp ht with h1 | h1
      · exact htr1 t h1
      · have h2 := hmo.2.2.1 t h1
        exact ⟨hkb _ h2.1, hkb _ h2.2⟩
    · exact hpm.2.1

theorem reachable_invC3 (st : OrderBook) (h : Reachable st) : InvC3 st := by
  induction h with
  | init symbol tick_size b hb => exact init_inv symbol tick_size b hb
  | submit st side price quantity order_type timestamp hr ih =>
    exact submit_inv st side price quantity order_type timestamp ih
  | cancel st oid hr ih => exact cancel_inv st oid ih

/-- C3: conservation of quantity.  In every state reachable from
construction through the public commands (submit and cancel), every
registered order's original quantity equals its remaining quantity plus
the summed quantity of the logged trades whose buy or sell order id is
that order's id. -/
theorem conservation_of_quantity (st : OrderBook) (h : Reachable st) : Conserv st :=
  (reachable_invC3 st h).2.2.2.2.2

/-- Witness for `conservation_of_quantity`: after a resting SELL of 7
and a crossing BUY of 5 on a fresh book, every registered order
satisfies conservation. -/
theorem conservation_of_quantity_witness :
    Reachable (submit_order (submit_order (emptyBook "SIM" 1) Side.SELL 100 7
      OrderType.LIMIT 1).1 Side.BUY 100 5 OrderType.LIMIT 2).1 ∧
    Conserv (submit_order (submit_order (emptyBook "SIM" 1) Side.SELL 100 7
      OrderType.LIMIT 1).1 Side.BUY 100 5 OrderType.LIMIT 2).1 := by
  have hr : Reachable (submit_order (submit_order (emptyBook "SIM" 1) Side.SELL 100 7
      OrderType.LIMIT 1).1 Side.BUY 100 5 OrderType.LIMIT 2).1 :=
    Reachable.submit _ _ _ _ _ _
      (Reachable.submit _ _ _ _ _ _
        (Reachable.init "SIM" 1 (emptyBook "SIM" 1) rfl))
  exact ⟨hr, conservation_of_quantity _ hr⟩

end OrderbookSim
